import Mathlib

/-!
# Verification of the RentWeb rental-reservation core

A shallow embedding of the stock reservation / reconciliation core of the
RentWeb backend (`src/worker.ts`, `src/services/dataService.ts`,
`src/schema.sql`) together with proofs of the specification claims.

The repository ships two backend variants inside `src/worker.ts`:
* the first (itty-router) variant, whose reconciliation helper is
  `manageRentalUpdate` around lines 415-513; embedded here with the `V1`
  suffix, and
* the second (direct-handler) variant, whose reconciliation helper is
  `manageRentalUpdate` ("V3" in its log messages) around lines 964-1072;
  embedded here without a suffix, since the direct handlers are the ones
  that serve requests in that variant.
The localStorage-backed `dataService.ts` functions are embedded in the
`DataService` namespace.

Modelling conventions:
* JavaScript numbers are embedded as `Int` (all quantities in this core are
  integral).
* A D1 row store is a `DBState`: a list of `Items` rows and a list of
  `RentalApplications` rows (each carrying its `RentalApplicationItems`
  junction rows inline as `items`).
* A D1 batch is applied sequentially; a handler that throws before issuing
  its batch leaves the state unchanged, which the embedding renders as
  `Except`: `.error` results carry no state.  `dataService.ts` mutates
  localStorage write-by-write, so its application-creation function threads
  the state and can return a partially-updated state together with an error.
* Distinct thrown `Error` messages / HTTP error classes are embedded as
  constructors of `ApiErr`.
-/

namespace RentWeb

/-- `RentalStatus` enum of `worker.ts` (PENDING = '대여 전', RENTED = '대여 중',
RETURNED = '반납 완료'). -/
inductive RentalStatus where
  | PENDING
  | RENTED
  | RETURNED
deriving DecidableEq, Repr

/-- `status === RentalStatus.PENDING || status === RentalStatus.RENTED`,
the "reserved" test used by both reconciliation variants. -/
def reservedStatus : RentalStatus → Bool
  | .PENDING => true
  | .RENTED => true
  | .RETURNED => false

/-- An `Items` row (`schema.sql` / the `Item` interface of `worker.ts`). -/
structure Item where
  id : String
  name : String
  initialStock : Int
  currentStock : Int
  price : Int
  description : String
  imageUrl : String
  unit : String
deriving DecidableEq, Repr

/-- A `RentalApplicationItems` junction row (`SelectedItemEntry`). -/
structure SelectedItemEntry where
  itemId : String
  quantity : Int
deriving DecidableEq, Repr

/-- A `RentalApplications` row together with its junction rows (`items`). -/
structure RentalApplication where
  id : String
  applicantName : String
  phoneNumber : String
  studentId : String
  accountHolderName : String
  accountNumber : String
  rentalDate : String
  returnDate : String
  items : List SelectedItemEntry
  totalItemCost : Int
  deposit : Int
  totalAmount : Int
  status : RentalStatus
  applicationDate : String
  rentalStaff : Option String
  returnStaff : Option String
  actualReturnDate : Option String
  depositRefunded : Bool
deriving DecidableEq, Repr

/-- The persistent store: `Items` and `RentalApplications` tables. -/
structure DBState where
  items : List Item
  rentals : List RentalApplication
deriving DecidableEq, Repr

/-- The distinct error classes thrown / returned by the handlers. -/
inductive ApiErr where
  /-- "Insufficient stock for ..." (HTTP 400/409). -/
  | insufficientStock
  /-- "Item with ID ... not found." / "Item details for ... not found". -/
  | itemNotFound
  /-- "Application not found" (HTTP 404). -/
  | appNotFound
  /-- "Only PENDING applications can be modified/cancelled by user." (403). -/
  | notPending
  /-- "Invalid data: Items list cannot be empty, and dates must be valid."
  or an invalid catalog-item payload (HTTP 400). -/
  | invalidInput
  /-- "Actual return date is required for RETURNED status." (HTTP 400). -/
  | returnDateRequired
deriving DecidableEq, Repr

/-- JavaScript's lexicographic string comparison (`a < b` on code-unit
sequences), used for the `rentalDate > returnDate` date check; written over
the character list so that it evaluates inside the kernel. -/
def strLtChars : List Char → List Char → Bool
  | [], [] => false
  | [], _ :: _ => true
  | _ :: _, [] => false
  | a :: as, b :: bs =>
    if a.toNat < b.toNat then true
    else if b.toNat < a.toNat then false
    else strLtChars as bs

/-- `s < t` on strings, as JavaScript compares dates in `YYYY-MM-DD` form. -/
def strLtB (s t : String) : Bool := strLtChars s.data t.data

/-- JavaScript falsiness of a string (`!s`): true exactly for `""`. -/
def strIsEmpty (s : String) : Bool := s.data.isEmpty

/-- `allDbItems.find(i => i.id === itemId)`. -/
def findItem (items : List Item) (itemId : String) : Option Item :=
  items.find? (fun it => it.id == itemId)

/-- `const entry = entries.find(i => i.itemId === itemId); entry ? entry.quantity : 0`. -/
def qtyOf (entries : List SelectedItemEntry) (itemId : String) : Int :=
  match entries.find? (fun e => e.itemId == itemId) with
  | some e => e.quantity
  | none => 0

/-- `calculateRentalCosts` (identical logic in `dataService.ts` and in both
`worker.ts` variants): fold the selected entries, adding `price * quantity`
for each entry whose `itemId` resolves in the item list, then add the fixed
deposit for the total amount.  Returns `(totalItemCost, totalAmount)`. -/
def calculateRentalCosts (selectedItems : List SelectedItemEntry)
    (allDbItems : List Item) (fixedDeposit : Int) : Int × Int :=
  let totalItemCost := selectedItems.foldl (fun acc selected =>
    match findItem allDbItems selected.itemId with
    | some itemDetails => acc + itemDetails.price * selected.quantity
    | none => acc) 0
  (totalItemCost, totalItemCost + fixedDeposit)

namespace Worker

/-- Request body of `POST /api/rentals/apply` (the `Omit<RentalApplication, ...>`
fields actually read by the handler and inserted into the database). -/
structure CreateReq where
  applicantName : String
  phoneNumber : String
  studentId : String
  accountHolderName : String
  accountNumber : String
  rentalDate : String
  returnDate : String
  items : List SelectedItemEntry
deriving DecidableEq, Repr

/-- The stock-validation loop of the create handlers: for each selected item,
look it up in the fresh `Items` read; a missing row is a 400
(`Item with ID ... not found`), and `currentStock < quantity` is the
`Insufficient stock` 400.  Runs entirely before any write. -/
def validateCreate (allDbItems : List Item) :
    List SelectedItemEntry → Except ApiErr Unit
  | [] => .ok ()
  | selectedItem :: rest =>
    match findItem allDbItems selectedItem.itemId with
    | none => .error .itemNotFound
    | some itemDetail =>
      if itemDetail.currentStock < selectedItem.quantity then
        .error .insufficientStock
      else validateCreate allDbItems rest

/-- One conditional decrement
`UPDATE Items SET currentStock = currentStock - ? WHERE id = ? AND currentStock >= ?`:
the row is changed only when the guard holds, otherwise the statement is a
no-op (it still "succeeds" with zero changed rows). -/
def condDecrement (inv : List Item) (itemId : String) (quantity : Int) :
    List Item :=
  inv.map (fun it =>
    if it.id == itemId ∧ quantity ≤ it.currentStock then
      { it with currentStock := it.currentStock - quantity }
    else it)

/-- The full list of conditional stock decrements of one create batch. -/
def condDecAll (inv : List Item) (entries : List SelectedItemEntry) : List Item :=
  entries.foldl (fun acc e => condDecrement acc e.itemId e.quantity) inv

/-- The `RentalApplication` row inserted by the create handlers: status is
forced to PENDING, costs are the freshly computed ones, `deposit` the fixed
deposit; the staff / return columns are absent from the INSERT so the row
holds NULLs, and `depositRefunded` its default 0. -/
def mkNewApplication (req : CreateReq) (newId applicationDate : String)
    (totalItemCost fixedDeposit : Int) : RentalApplication :=
  { id := newId
    applicantName := req.applicantName
    phoneNumber := req.phoneNumber
    studentId := req.studentId
    accountHolderName := req.accountHolderName
    accountNumber := req.accountNumber
    rentalDate := req.rentalDate
    returnDate := req.returnDate
    items := req.items
    totalItemCost := totalItemCost
    deposit := fixedDeposit
    totalAmount := totalItemCost + fixedDeposit
    status := .PENDING
    applicationDate := applicationDate
    rentalStaff := none
    returnStaff := none
    actualReturnDate := none
    depositRefunded := false }

/-- The write batch of the create handler, applied to the store: insert the
application row and its junction rows, then run the conditional decrements.
Costs are computed from the item snapshot read during validation. -/
def commitCreate (st : DBState) (snapshot : List Item) (req : CreateReq)
    (newId applicationDate : String) (fixedDeposit : Int) :
    DBState × RentalApplication :=
  let costs := calculateRentalCosts req.items snapshot fixedDeposit
  let newApp := mkNewApplication req newId applicationDate costs.1 fixedDeposit
  ({ items := condDecAll st.items req.items
     rentals := st.rentals ++ [newApp] }, newApp)

/-- `POST /api/rentals/apply` (direct handler, `worker.ts` 1336-1434):
validate every entry against a fresh read, then submit the batch. -/
def createHandler (st : DBState) (req : CreateReq)
    (newId applicationDate : String) (fixedDeposit : Int) :
    Except ApiErr (DBState × RentalApplication) :=
  match validateCreate st.items req.items with
  | .error e => .error e
  | .ok _ => .ok (commitCreate st st.items req newId applicationDate fixedDeposit)

/-- The per-item `stockChange` computation of `manageRentalUpdate`
(both variants, `worker.ts` 450-456 and 1003-1014): positive means restore
stock, negative means reserve. -/
def stockChangeFor (oldRes newRes : Bool) (oldQty newQty : Int) : Int :=
  if oldRes && !newRes then (if 0 < oldQty then oldQty else 0)
  else if !oldRes && newRes then (if 0 < newQty then -newQty else 0)
  else if oldRes && newRes then oldQty - newQty
  else 0

/-- The guard-check-cap step applied to one nonzero-candidate `stockChange`
in the second (direct-handler) variant (`worker.ts` 1016-1035): skip a zero
change, fail when the simulated future stock would go negative, cap a
positive change that would exceed `initialStock`, and skip again if the cap
reduced the change to zero.  Returns the delta actually written, if any. -/
def reconcileItemDelta (currentItemStock initialItemStock stockChange : Int) :
    Except ApiErr (Option Int) :=
  if stockChange ≠ 0 then
    if currentItemStock + stockChange < 0 then .error .insufficientStock
    else
      let sc := if initialItemStock < currentItemStock + stockChange ∧ 0 < stockChange
                then initialItemStock - currentItemStock else stockChange
      if sc ≠ 0 then .ok (some sc) else .ok none
  else .ok none

/-- Same step in the first (itty-router) variant (`worker.ts` 458-477): the
cap is applied whenever the future stock exceeds `initialStock`, without the
`stockChange > 0` guard of the second variant. -/
def reconcileItemDeltaV1 (currentItemStock initialItemStock stockChange : Int) :
    Except ApiErr (Option Int) :=
  if stockChange ≠ 0 then
    if currentItemStock + stockChange < 0 then .error .insufficientStock
    else
      let sc := if initialItemStock < currentItemStock + stockChange
                then initialItemStock - currentItemStock else stockChange
      if sc ≠ 0 then .ok (some sc) else .ok none
  else .ok none

/-- `currentItemStockMap.get(itemId) ?? 0` over the running simulated stock
map. -/
def lookupStock (m : List (String × Int)) (itemId : String) : Int :=
  match m.find? (fun p => p.1 == itemId) with
  | some p => p.2
  | none => 0

/-- `currentItemStockMap.set(itemId, v)` (the key is always already present
when the code calls it). -/
def setStock (m : List (String × Int)) (itemId : String) (v : Int) :
    List (String × Int) :=
  m.map (fun p => if p.1 == itemId then (p.1, v) else p)

/-- The JavaScript `Set` of `allInvolvedItemIds`: all item ids of the old and
new entry lists, first occurrences kept, in order. -/
def dedupIds (seen : List String) : List String → List String
  | [] => []
  | x :: xs => if x ∈ seen then dedupIds seen xs else x :: dedupIds (x :: seen) xs

/-- `new Set([...originalApp.items.map(i => i.itemId), ...newItems.map(i => i.itemId)])`. -/
def involvedItemIds (oldItems newItems : List SelectedItemEntry) : List String :=
  dedupIds [] (oldItems.map (fun e => e.itemId) ++ newItems.map (fun e => e.itemId))

/-- The reconciliation loop of the second variant (`worker.ts` 988-1036):
walk the involved item ids; a missing `Items` row is skipped; otherwise run
the delta step against the running simulated stock map, collecting the
issued `UPDATE Items SET currentStock = currentStock + ?` operations. -/
def reconcileLoop (allDbItems : List Item)
    (oldItems newItems : List SelectedItemEntry) (oldRes newRes : Bool) :
    List String → List (String × Int) →
    Except ApiErr (List (String × Int) × List (String × Int))
  | [], m => .ok ([], m)
  | itemId :: rest, m =>
    match findItem allDbItems itemId with
    | none => reconcileLoop allDbItems oldItems newItems oldRes newRes rest m
    | some itemDetails =>
      let oldQty := qtyOf oldItems itemId
      let newQty := qtyOf newItems itemId
      let stockChange := stockChangeFor oldRes newRes oldQty newQty
      let currentItemStock := lookupStock m itemId
      match reconcileItemDelta currentItemStock itemDetails.initialStock stockChange with
      | .error e => .error e
      | .ok none => reconcileLoop allDbItems oldItems newItems oldRes newRes rest m
      | .ok (some sc) =>
        match reconcileLoop allDbItems oldItems newItems oldRes newRes rest
            (setStock m itemId (currentItemStock + sc)) with
        | .error e => .error e
        | .ok (ops, m') => .ok ((itemId, sc) :: ops, m')

/-- Same loop in the first variant (`worker.ts` 440-478): a missing `Items`
row throws (`Item details for ... not found during update`) instead of being
skipped, and the cap step has no positivity guard. -/
def reconcileLoopV1 (allDbItems : List Item)
    (oldItems newItems : List SelectedItemEntry) (oldRes newRes : Bool) :
    List String → List (String × Int) →
    Except ApiErr (List (String × Int) × List (String × Int))
  | [], m => .ok ([], m)
  | itemId :: rest, m =>
    match findItem allDbItems itemId with
    | none => .error .itemNotFound
    | some itemDetails =>
      let oldQty := qtyOf oldItems itemId
      let newQty := qtyOf newItems itemId
      let stockChange := stockChangeFor oldRes newRes oldQty newQty
      let currentItemStock := lookupStock m itemId
      match reconcileItemDeltaV1 currentItemStock itemDetails.initialStock stockChange with
      | .error e => .error e
      | .ok none => reconcileLoopV1 allDbItems oldItems newItems oldRes newRes rest m
      | .ok (some sc) =>
        match reconcileLoopV1 allDbItems oldItems newItems oldRes newRes rest
            (setStock m itemId (currentItemStock + sc)) with
        | .error e => .error e
        | .ok (ops, m') => .ok ((itemId, sc) :: ops, m')

/-- One `UPDATE Items SET currentStock = currentStock + ? WHERE id = ?`. -/
def applyStockAdd (inv : List Item) (itemId : String) (d : Int) : List Item :=
  inv.map (fun it =>
    if it.id == itemId then { it with currentStock := it.currentStock + d } else it)

/-- Apply a list of unconditional stock updates, in order. -/
def applyOps (inv : List Item) (ops : List (String × Int)) : List Item :=
  ops.foldl (fun acc p => applyStockAdd acc p.1 p.2) inv

/-- The `UPDATE RentalApplications ... WHERE id = ?` row replacement (the
junction rows were deleted and reinserted, so the whole ledger entry is
replaced). -/
def replaceApp (rentals : List RentalApplication) (app : RentalApplication) :
    List RentalApplication :=
  rentals.map (fun a => if a.id == app.id then app else a)

/-- `manageRentalUpdate` of the second variant (`worker.ts` 964-1072): run
the reconciliation loop over the involved ids against a fresh `Items` read,
recompute the costs for the new entry list, build the final application
(core fields from `updatedAppCore`, id forced to the original id, items
forced to `newItems`, derived cost fields overwritten), and stage the write
batch.  Returns the final application, the issued stock updates, and the
store after the batch. -/
def manageRentalUpdate (st : DBState)
    (originalApp updatedAppCore : RentalApplication)
    (newItems : List SelectedItemEntry) (fixedDeposit : Int) :
    Except ApiErr (RentalApplication × List (String × Int) × DBState) :=
  let allDbItems := st.items
  let initialMap := allDbItems.map (fun it => (it.id, it.currentStock))
  let oldRes := reservedStatus originalApp.status
  let newRes := reservedStatus updatedAppCore.status
  match reconcileLoop allDbItems originalApp.items newItems oldRes newRes
      (involvedItemIds originalApp.items newItems) initialMap with
  | .error e => .error e
  | .ok (ops, _) =>
    let costs := calculateRentalCosts newItems allDbItems fixedDeposit
    let finalApp : RentalApplication :=
      { updatedAppCore with
        id := originalApp.id
        items := newItems
        totalItemCost := costs.1
        deposit := fixedDeposit
        totalAmount := costs.1 + fixedDeposit }
    .ok (finalApp, ops,
      { items := applyOps st.items ops
        rentals := replaceApp st.rentals finalApp })

/-- `manageRentalUpdate` of the first variant (`worker.ts` 415-513); same
shape with the V1 loop. -/
def manageRentalUpdateV1 (st : DBState)
    (originalApp updatedAppCore : RentalApplication)
    (newItems : List SelectedItemEntry) (fixedDeposit : Int) :
    Except ApiErr (RentalApplication × List (String × Int) × DBState) :=
  let allDbItems := st.items
  let initialMap := allDbItems.map (fun it => (it.id, it.currentStock))
  let oldRes := reservedStatus originalApp.status
  let newRes := reservedStatus updatedAppCore.status
  match reconcileLoopV1 allDbItems originalApp.items newItems oldRes newRes
      (involvedItemIds originalApp.items newItems) initialMap with
  | .error e => .error e
  | .ok (ops, _) =>
    let costs := calculateRentalCosts newItems allDbItems fixedDeposit
    let finalApp : RentalApplication :=
      { updatedAppCore with
        id := originalApp.id
        items := newItems
        totalItemCost := costs.1
        deposit := fixedDeposit
        totalAmount := costs.1 + fixedDeposit }
    .ok (finalApp, ops,
      { items := applyOps st.items ops
        rentals := replaceApp st.rentals finalApp })

/-- The JSON body of `PUT /api/rentals/:id`.  The handler destructures only
`items`, `rentalDate` and `returnDate`; any other members of the parsed JSON
are never read.  Representative ignored members are kept in the model so
that theorems can quantify over them. -/
structure UserUpdateBody where
  items : Option (List SelectedItemEntry)
  rentalDate : Option String
  returnDate : Option String
  status : Option RentalStatus
  applicantName : Option String
  totalItemCost : Option Int
  depositRefunded : Option Bool
deriving DecidableEq, Repr

/-- `PUT /api/rentals/:id` (direct handler, `worker.ts` 1484-1551): reject a
missing/empty items list, missing/empty dates or `rentalDate > returnDate`
(falsy checks: an absent field or the empty string fails `!x`); 404 when the
application row is missing; 403 unless the stored status is PENDING; then
reconcile with `updatedAppCore = { ...fullOriginalApp, rentalDate, returnDate }`. -/
def userUpdateHandler (st : DBState) (rentalId : String) (body : UserUpdateBody)
    (fixedDeposit : Int) :
    Except ApiErr (RentalApplication × List (String × Int) × DBState) :=
  match body.items, body.rentalDate, body.returnDate with
  | some newItemsData, some rentalDate, some returnDate =>
    if newItemsData.isEmpty || strIsEmpty rentalDate || strIsEmpty returnDate
        || strLtB returnDate rentalDate then
      .error .invalidInput
    else
      match st.rentals.find? (fun a => a.id == rentalId) with
      | none => .error .appNotFound
      | some fullOriginalApp =>
        if fullOriginalApp.status ≠ .PENDING then .error .notPending
        else
          let updatedAppCore :=
            { fullOriginalApp with rentalDate := rentalDate, returnDate := returnDate }
          manageRentalUpdate st fullOriginalApp updatedAppCore newItemsData fixedDeposit
  | _, _, _ => .error .invalidInput

/-- `PUT /api/rentals/:id` in the first variant (`worker.ts` 516-548):
identical flow, with the first-variant reconciliation helper. -/
def userUpdateHandlerV1 (st : DBState) (rentalId : String) (body : UserUpdateBody)
    (fixedDeposit : Int) :
    Except ApiErr (RentalApplication × List (String × Int) × DBState) :=
  match body.items, body.rentalDate, body.returnDate with
  | some newItemsData, some rentalDate, some returnDate =>
    if newItemsData.isEmpty || strIsEmpty rentalDate || strIsEmpty returnDate
        || strLtB returnDate rentalDate then
      .error .invalidInput
    else
      match st.rentals.find? (fun a => a.id == rentalId) with
      | none => .error .appNotFound
      | some fullOriginalApp =>
        if fullOriginalApp.status ≠ .PENDING then .error .notPending
        else
          let updatedAppCore :=
            { fullOriginalApp with rentalDate := rentalDate, returnDate := returnDate }
          manageRentalUpdateV1 st fullOriginalApp updatedAppCore newItemsData fixedDeposit
  | _, _, _ => .error .invalidInput

/-- `POST /api/rentals/:id/cancel` (direct handler, `worker.ts` 1553-1610):
404 when missing, 403 unless PENDING; otherwise one
`currentStock = currentStock + quantity` per junction row, then delete the
junction rows and the application row, as one batch. -/
def cancelHandler (st : DBState) (rentalId : String) : Except ApiErr DBState :=
  match st.rentals.find? (fun a => a.id == rentalId) with
  | none => .error .appNotFound
  | some appToCancel =>
    if appToCancel.status ≠ .PENDING then .error .notPending
    else
      .ok { items := applyOps st.items
              (appToCancel.items.map (fun e => (e.itemId, e.quantity)))
            rentals := st.rentals.filter (fun a => !(a.id == rentalId)) }

/-- `DELETE /api/admin/rentals/:id` (direct handler, `worker.ts` 1744-1814):
404 when missing; restore each junction row's quantity when the stored
status is PENDING or RENTED (no restore for RETURNED); then delete the
junction rows and the application row. -/
def adminDeleteHandler (st : DBState) (rentalId : String) : Except ApiErr DBState :=
  match st.rentals.find? (fun a => a.id == rentalId) with
  | none => .error .appNotFound
  | some appToDelete =>
    let restores :=
      if appToDelete.status = .PENDING ∨ appToDelete.status = .RENTED then
        appToDelete.items.map (fun e => (e.itemId, e.quantity))
      else []
    .ok { items := applyOps st.items restores
          rentals := st.rentals.filter (fun a => !(a.id == rentalId)) }

/-- The JSON body of `PUT /api/admin/rentals/:id`
(`Partial<RentalApplication>`): every field optional; absent fields leave the
stored value in place under the `{ ...fullOriginalApp, ...adminUpdatedData }`
spread. -/
structure AdminUpdateBody where
  applicantName : Option String
  phoneNumber : Option String
  studentId : Option String
  accountHolderName : Option String
  accountNumber : Option String
  rentalDate : Option String
  returnDate : Option String
  items : Option (List SelectedItemEntry)
  totalItemCost : Option Int
  deposit : Option Int
  totalAmount : Option Int
  status : Option RentalStatus
  applicationDate : Option String
  rentalStaff : Option String
  returnStaff : Option String
  actualReturnDate : Option String
  depositRefunded : Option Bool
deriving DecidableEq, Repr

/-- `{ ...fullOriginalApp, ...adminUpdatedData, id: fullOriginalApp.id }`:
overlay the present body fields on the stored row; the id cannot change.
(The body's cost fields land here too, but `manageRentalUpdate` overwrites
them with recomputed values.) -/
def mergeAdminData (orig : RentalApplication) (b : AdminUpdateBody) :
    RentalApplication :=
  { id := orig.id
    applicantName := b.applicantName.getD orig.applicantName
    phoneNumber := b.phoneNumber.getD orig.phoneNumber
    studentId := b.studentId.getD orig.studentId
    accountHolderName := b.accountHolderName.getD orig.accountHolderName
    accountNumber := b.accountNumber.getD orig.accountNumber
    rentalDate := b.rentalDate.getD orig.rentalDate
    returnDate := b.returnDate.getD orig.returnDate
    items := b.items.getD orig.items
    totalItemCost := b.totalItemCost.getD orig.totalItemCost
    deposit := b.deposit.getD orig.deposit
    totalAmount := b.totalAmount.getD orig.totalAmount
    status := b.status.getD orig.status
    applicationDate := b.applicationDate.getD orig.applicationDate
    rentalStaff := match b.rentalStaff with
      | some s => some s
      | none => orig.rentalStaff
    returnStaff := match b.returnStaff with
      | some s => some s
      | none => orig.returnStaff
    actualReturnDate := match b.actualReturnDate with
      | some s => some s
      | none => orig.actualReturnDate
    depositRefunded := b.depositRefunded.getD orig.depositRefunded }

/-- `!updatedAppCore.actualReturnDate`: absent or empty string is falsy. -/
def missingReturnDate (d : Option String) : Bool :=
  match d with
  | none => true
  | some s => strIsEmpty s

/-- `PUT /api/admin/rentals/:id` (direct handler, `worker.ts` 1676-1742):
404 when missing; `newItemsToUse` is the STORED entry list — the body's
`items` array is never passed on; merge the body over the stored row;
400 when the merged status is RETURNED without an actual return date; then
reconcile. -/
def adminUpdateHandler (st : DBState) (rentalId : String) (body : AdminUpdateBody)
    (fixedDeposit : Int) :
    Except ApiErr (RentalApplication × List (String × Int) × DBState) :=
  match st.rentals.find? (fun a => a.id == rentalId) with
  | none => .error .appNotFound
  | some fullOriginalApp =>
    let newItemsToUse := fullOriginalApp.items
    let updatedAppCore := mergeAdminData fullOriginalApp body
    if updatedAppCore.status = .RETURNED
        ∧ missingReturnDate updatedAppCore.actualReturnDate then
      .error .returnDateRequired
    else
      manageRentalUpdate st fullOriginalApp updatedAppCore newItemsToUse fixedDeposit

/-- `PUT /api/admin/rentals/:id` in the first variant (`worker.ts` 617-652):
`newItemsToUse = adminUpdatedData.items || fullOriginalApp.items` — a body
with an `items` array (any array is truthy in JavaScript, including `[]`)
replaces the stored entry list. -/
def adminUpdateHandlerV1 (st : DBState) (rentalId : String) (body : AdminUpdateBody)
    (fixedDeposit : Int) :
    Except ApiErr (RentalApplication × List (String × Int) × DBState) :=
  match st.rentals.find? (fun a => a.id == rentalId) with
  | none => .error .appNotFound
  | some fullOriginalApp =>
    let newItemsToUse := body.items.getD fullOriginalApp.items
    let updatedAppCore := mergeAdminData fullOriginalApp body
    if updatedAppCore.status = .RETURNED
        ∧ missingReturnDate updatedAppCore.actualReturnDate then
      .error .returnDateRequired
    else
      manageRentalUpdateV1 st fullOriginalApp updatedAppCore newItemsToUse fixedDeposit

/-- `PUT /api/items/:id` (direct handler, `worker.ts` 1224-1283): 400 when
`currentStock > initialStock` or any of stock/price negative; the UPDATE
sets every column except `id` on the row matched by the route id; zero
changed rows is a 404. -/
def updateItemHandler (st : DBState) (itemId : String) (updatedItemData : Item) :
    Except ApiErr DBState :=
  if updatedItemData.initialStock < updatedItemData.currentStock then
    .error .invalidInput
  else if updatedItemData.currentStock < 0 ∨ updatedItemData.initialStock < 0
      ∨ updatedItemData.price < 0 then
    .error .invalidInput
  else
    match findItem st.items itemId with
    | none => .error .itemNotFound
    | some _ =>
      .ok { st with items := st.items.map (fun it =>
              if it.id == itemId then { updatedItemData with id := it.id } else it) }

/-- The two-request interleaving model for `POST /api/rentals/apply`
(claim C9).  Each request is a read-validate phase against a snapshot and an
atomic commit (the D1 batch).  With `racy = false` the requests run strictly
one after the other; with `racy = true` both validate against the initial
snapshot before either batch commits (batches are serialized by the store,
first request first).  A request whose validation fails issues no batch. -/
def runTwoCreates (st : DBState) (reqA reqB : CreateReq)
    (idA idB applicationDate : String) (fixedDeposit : Int) (racy : Bool) :
    DBState × Except ApiErr RentalApplication × Except ApiErr RentalApplication :=
  if racy then
    match validateCreate st.items reqA.items, validateCreate st.items reqB.items with
    | .ok _, .ok _ =>
      let resA := commitCreate st st.items reqA idA applicationDate fixedDeposit
      let resB := commitCreate resA.1 st.items reqB idB applicationDate fixedDeposit
      (resB.1, .ok resA.2, .ok resB.2)
    | .ok _, .error eB =>
      let resA := commitCreate st st.items reqA idA applicationDate fixedDeposit
      (resA.1, .ok resA.2, .error eB)
    | .error eA, .ok _ =>
      let resB := commitCreate st st.items reqB idB applicationDate fixedDeposit
      (resB.1, .error eA, .ok resB.2)
    | .error eA, .error eB => (st, .error eA, .error eB)
  else
    match createHandler st reqA idA applicationDate fixedDeposit with
    | .ok (st1, appA) =>
      match createHandler st1 reqB idB applicationDate fixedDeposit with
      | .ok (st2, appB) => (st2, .ok appA, .ok appB)
      | .error eB => (st1, .ok appA, .error eB)
    | .error eA =>
      match createHandler st reqB idB applicationDate fixedDeposit with
      | .ok (st1, appB) => (st1, .error eA, .ok appB)
      | .error eB => (st, .error eA, .error eB)

end Worker

namespace DataService

/-- The `operation` argument of `adjustStockForItem`. -/
inductive StockOp where
  | decrease
  | increase
deriving DecidableEq, Repr

/-- `adjustStockForItem` (`dataService.ts` 95-117): fresh read, find the
item (missing is an error); a decrease below zero throws
`Insufficient stock`; an increase is capped at `initialStock`; the row is
rewritten with the new stock. -/
def adjustStockForItem (currentItems : List Item) (itemId : String)
    (quantity : Int) (operation : StockOp) : Except ApiErr (List Item) :=
  match findItem currentItems itemId with
  | none => .error .itemNotFound
  | some item =>
    match operation with
    | .decrease =>
      if item.currentStock < quantity then .error .insufficientStock
      else
        .ok (currentItems.map (fun i =>
          if i.id == itemId then { item with currentStock := item.currentStock - quantity }
          else i))
    | .increase =>
      let newStock := item.currentStock + quantity
      let newStock := if item.initialStock < newStock then item.initialStock else newStock
      .ok (currentItems.map (fun i =>
        if i.id == itemId then { item with currentStock := newStock } else i))

/-- The stock-validation loop of `addRentalApplication`
(`dataService.ts` 126-131): `!itemDetail || itemDetail.currentStock <
selectedItem.quantity` throws the `Insufficient stock` message (both arms
share one message). -/
def validateStock (allItems : List Item) :
    List SelectedItemEntry → Except ApiErr Unit
  | [] => .ok ()
  | selectedItem :: rest =>
    match findItem allItems selectedItem.itemId with
    | none => .error .insufficientStock
    | some itemDetail =>
      if itemDetail.currentStock < selectedItem.quantity then
        .error .insufficientStock
      else validateStock allItems rest

/-- `newApplication.items.forEach(itemEntry => adjustStockForItem(..., 'decrease'))`:
each adjustment writes localStorage immediately; an exception mid-loop keeps
the writes already made, so the partially updated inventory is returned with
the error. -/
def adjustAllDecrease :
    List SelectedItemEntry → List Item → List Item × Option ApiErr
  | [], inv => (inv, none)
  | e :: rest, inv =>
    match adjustStockForItem inv e.itemId e.quantity .decrease with
    | .error msg => (inv, some msg)
    | .ok inv' => adjustAllDecrease rest inv'

/-- `addRentalApplication` (`dataService.ts` 120-152): validate every entry
against a fresh read (before any write), compute the costs, build the
PENDING application, decrease stock entry by entry, then append the ledger
row.  The returned state reflects exactly the writes performed. -/
def addRentalApplication (st : DBState) (req : Worker.CreateReq)
    (newId applicationDate : String) (fixedDeposit : Int) :
    DBState × Except ApiErr RentalApplication :=
  match validateStock st.items req.items with
  | .error e => (st, .error e)
  | .ok _ =>
    let costs := calculateRentalCosts req.items st.items fixedDeposit
    let newApp := Worker.mkNewApplication req newId applicationDate costs.1 fixedDeposit
    match adjustAllDecrease req.items st.items with
    | (inv', some e) => ({ st with items := inv' }, .error e)
    | (inv', none) => ({ items := inv', rentals := st.rentals ++ [newApp] }, .ok newApp)

end DataService

/-! ## Invariants (spec §3, §8) -/

/-- The `Items` table has unique ids (`id TEXT PRIMARY KEY`). -/
def itemsWF (items : List Item) : Prop :=
  (items.map (fun it => it.id)).Nodup

/-- A well-formed entry list (spec §3, `SelectedItemEntry`): positive
quantities, one entry per item id (`PRIMARY KEY (rentalApplicationId, itemId)`). -/
def entriesWF (entries : List SelectedItemEntry) : Prop :=
  (entries.map (fun e => e.itemId)).Nodup ∧ ∀ e ∈ entries, 0 < e.quantity

/-- The amount of an item held by one application: its quantities for that
item while the application is in a reserved status, 0 otherwise. -/
def appContribution (app : RentalApplication) (itemId : String) : Int :=
  if reservedStatus app.status then
    ((app.items.filter (fun e => e.itemId == itemId)).map (fun e => e.quantity)).sum
  else 0

/-- `Σ (quantity over all reserved applications referencing this item)`. -/
def reservedQty (rentals : List RentalApplication) (itemId : String) : Int :=
  (rentals.map (fun a => appContribution a itemId)).sum

/-- Conservation law (spec §8): `currentStock + Σ reserved quantities =
initialStock` for every item. -/
def conservation (st : DBState) : Prop :=
  ∀ it ∈ st.items, it.currentStock + reservedQty st.rentals it.id = it.initialStock

/-- Stock bounds (spec §8 / `schema.sql` CHECKs): `0 ≤ currentStock ≤
initialStock` for every item. -/
def stockBounds (st : DBState) : Prop :=
  ∀ it ∈ st.items, 0 ≤ it.currentStock ∧ it.currentStock ≤ it.initialStock

/-- The full store invariant: unique item ids, unique application ids
(`id TEXT PRIMARY KEY`), well-formed entry lists, stock bounds, and the
conservation law. -/
def Inv (st : DBState) : Prop :=
  itemsWF st.items
  ∧ (st.rentals.map (fun a => a.id)).Nodup
  ∧ (∀ app ∈ st.rentals, entriesWF app.items)
  ∧ stockBounds st
  ∧ conservation st

instance (st : DBState) : Decidable (conservation st) := by
  unfold conservation; infer_instance

instance (st : DBState) : Decidable (stockBounds st) := by
  unfold stockBounds; infer_instance

instance (st : DBState) : Decidable (Inv st) := by
  unfold Inv entriesWF itemsWF; infer_instance

instance (entries : List SelectedItemEntry) : Decidable (entriesWF entries) := by
  unfold entriesWF; infer_instance

/-! ## Observation helpers and concrete fixtures -/

/-- The combined stock delta a list of update operations applies to one item. -/
def opsDelta (ops : List (String × Int)) (itemId : String) : Int :=
  ((ops.filter (fun p => p.1 == itemId)).map (fun p => p.2)).sum

/-- Current stock of an item in a store (0 when the row is absent). -/
def curStockOf (st : DBState) (itemId : String) : Int :=
  match findItem st.items itemId with
  | some it => it.currentStock
  | none => 0

/-- The entry list stored for the application returned by an update handler. -/
def storedItemsOf
    (r : Except ApiErr (RentalApplication × List (String × Int) × DBState)) :
    Option (List SelectedItemEntry) :=
  match r with
  | .ok (finalApp, _, _) => some finalApp.items
  | .error _ => none

/-- Fixture: item "A" with `initialStock = 10` and the given current stock. -/
def itemA (cur : Int) : Item :=
  { id := "A", name := "Tent", initialStock := 10, currentStock := cur,
    price := 5, description := "", imageUrl := "", unit := "ea" }

/-- Fixture: a PENDING application `r0` holding the given entries. -/
def mkApp (entries : List SelectedItemEntry) (cost : Int) : RentalApplication :=
  { id := "r0", applicantName := "Kim", phoneNumber := "010", studentId := "2024",
    accountHolderName := "Kim", accountNumber := "123", rentalDate := "2026-01-01",
    returnDate := "2026-01-02", items := entries, totalItemCost := cost,
    deposit := 10, totalAmount := cost + 10, status := .PENDING,
    applicationDate := "2026-01-01", rentalStaff := none, returnStaff := none,
    actualReturnDate := none, depositRefunded := false }

/-- Fixture: a create request for the given entries. -/
def mkReq (entries : List SelectedItemEntry) : Worker.CreateReq :=
  { applicantName := "Lee", phoneNumber := "011", studentId := "2025",
    accountHolderName := "Lee", accountNumber := "456",
    rentalDate := "2026-02-01", returnDate := "2026-02-02", items := entries }

/-- Fixture: store with item "A" at 10/10 and no applications. -/
def stFree : DBState := ⟨[itemA 10], []⟩

/-- Fixture: store where `r0` holds `{A:4}`, so "A" is at 6/10. -/
def stHeld4 : DBState := ⟨[itemA 6], [mkApp [⟨"A", 4⟩] 20]⟩

/-- Fixture: store where `r0` holds `{A:5}`, so "A" is at 5/10. -/
def stHeld5 : DBState := ⟨[itemA 5], [mkApp [⟨"A", 5⟩] 25]⟩

/-- Fixture: store where `r0` holds `{A:2}`, so "A" is at 8/10. -/
def stHeld2 : DBState := ⟨[itemA 8], [mkApp [⟨"A", 2⟩] 10]⟩

/-- Fixture: user-edit body carrying the given entries and valid dates. -/
def mkUserBody (entries : List SelectedItemEntry) : Worker.UserUpdateBody :=
  { items := some entries, rentalDate := some "2026-01-01",
    returnDate := some "2026-01-02", status := some .RETURNED,
    applicantName := some "Mallory", totalItemCost := some 0,
    depositRefunded := some true }

/-- Fixture: admin body that is empty except for an `items` array. -/
def mkAdminItemsBody (entries : List SelectedItemEntry) : Worker.AdminUpdateBody :=
  { applicantName := none, phoneNumber := none, studentId := none,
    accountHolderName := none, accountNumber := none, rentalDate := none,
    returnDate := none, items := some entries, totalItemCost := none,
    deposit := none, totalAmount := none, status := none, applicationDate := none,
    rentalStaff := none, returnStaff := none, actualReturnDate := none,
    depositRefunded := none }

/-- Fixture: admin body that only moves the status to RENTED. -/
def adminRentBody : Worker.AdminUpdateBody :=
  { applicantName := none, phoneNumber := none, studentId := none,
    accountHolderName := none, accountNumber := none, rentalDate := none,
    returnDate := none, items := none, totalItemCost := some 999,
    deposit := none, totalAmount := some 999, status := some .RENTED,
    applicationDate := none, rentalStaff := some "staff1", returnStaff := none,
    actualReturnDate := none, depositRefunded := none }

/-- Post-state of a create result (a dummy empty store on error). -/
def createdState (r : Except ApiErr (DBState × RentalApplication)) : DBState :=
  match r with
  | .ok p => p.1
  | .error _ => ⟨[], []⟩

/-- The application persisted by a create result. -/
def createdApp (r : Except ApiErr (DBState × RentalApplication)) : RentalApplication :=
  match r with
  | .ok p => p.2
  | .error _ => mkApp [] 0

/-- Post-state of an update-handler result. -/
def updatedState
    (r : Except ApiErr (RentalApplication × List (String × Int) × DBState)) : DBState :=
  match r with
  | .ok p => p.2.2
  | .error _ => ⟨[], []⟩

/-- The application persisted by an update-handler result. -/
def updatedApp
    (r : Except ApiErr (RentalApplication × List (String × Int) × DBState)) :
    RentalApplication :=
  match r with
  | .ok p => p.1
  | .error _ => mkApp [] 0

/-- The stock updates issued by an update-handler result. -/
def updatedOps
    (r : Except ApiErr (RentalApplication × List (String × Int) × DBState)) :
    List (String × Int) :=
  match r with
  | .ok p => p.2.1
  | .error _ => []

/-- Post-state of a cancel / delete / catalog-update result. -/
def plainState (r : Except ApiErr DBState) : DBState :=
  match r with
  | .ok s => s
  | .error _ => ⟨[], []⟩

/-- Whether a create request was answered with HTTP 201. -/
def reqSucceeded (r : Except ApiErr RentalApplication) : Bool :=
  match r with
  | .ok _ => true
  | .error _ => false

/-- The stock change the reconciliation loop computes for one item id. -/
def scOf (oldItems newItems : List SelectedItemEntry) (oldRes newRes : Bool)
    (itemId : String) : Int :=
  Worker.stockChangeFor oldRes newRes (qtyOf oldItems itemId) (qtyOf newItems itemId)

/-- The stock updates the second-variant reconciliation loop issues when no
error and no cap occur: one `(id, scOf id)` per involved id whose item row
exists and whose change is nonzero, in id order. -/
def expectedOps (allDbItems : List Item) (oldItems newItems : List SelectedItemEntry)
    (oldRes newRes : Bool) (ids : List String) : List (String × Int) :=
  ids.filterMap (fun itemId =>
    match findItem allDbItems itemId with
    | some _ =>
      if scOf oldItems newItems oldRes newRes itemId ≠ 0 then
        some (itemId, scOf oldItems newItems oldRes newRes itemId)
      else none
    | none => none)

/-! ## Basic lemmas about lookups, deduplication and stock updates -/

lemma findItem_mem {items : List Item} {itemId : String} {it : Item}
    (h : findItem items itemId = some it) : it ∈ items :=
  List.mem_of_find?_eq_some h

lemma findItem_id {items : List Item} {itemId : String} {it : Item}
    (h : findItem items itemId = some it) : it.id = itemId := by
  have := List.find?_some h
  simpa using this

lemma findItem_self {items : List Item} (hw : itemsWF items) {it : Item}
    (hm : it ∈ items) : findItem items it.id = some it := by
  induction items with
  | nil => cases hm
  | cons a l ih =>
    rcases List.mem_cons.mp hm with rfl | hm'
    · simp [findItem]
    · rcases List.nodup_cons.mp hw with ⟨hnot, hnd⟩
      have hne : ¬ a.id = it.id := by
        intro he
        apply hnot
        show a.id ∈ _
        rw [he]
        simpa using List.mem_map_of_mem (fun x => x.id) hm'
      simpa [findItem, List.find?_cons, hne] using ih hnd hm'

lemma findEntry_self {entries : List SelectedItemEntry}
    (hnd : (entries.map (fun e => e.itemId)).Nodup) {e : SelectedItemEntry}
    (hm : e ∈ entries) :
    entries.find? (fun x => x.itemId == e.itemId) = some e := by
  induction entries with
  | nil => cases hm
  | cons a l ih =>
    rcases List.mem_cons.mp hm with rfl | hm'
    · simp
    · rcases List.nodup_cons.mp hnd with ⟨hnot, hnd'⟩
      have hne : ¬ a.itemId = e.itemId := by
        intro he
        apply hnot
        show a.itemId ∈ _
        rw [he]
        simpa using List.mem_map_of_mem (fun x => x.itemId) hm'
      simpa [List.find?_cons, hne] using ih hnd' hm'

lemma qtyOf_eq_of_mem {entries : List SelectedItemEntry}
    (hnd : (entries.map (fun e => e.itemId)).Nodup) {e : SelectedItemEntry}
    (hm : e ∈ entries) : qtyOf entries e.itemId = e.quantity := by
  simp [qtyOf, findEntry_self hnd hm]

lemma qtyOf_eq_zero {entries : List SelectedItemEntry} {itemId : String}
    (h : itemId ∉ entries.map (fun e => e.itemId)) : qtyOf entries itemId = 0 := by
  have hnone : entries.find? (fun x => x.itemId == itemId) = none := by
    rw [List.find?_eq_none]
    intro a ha hbeq
    have heq : a.itemId = itemId := by simpa using hbeq
    apply h
    rw [← heq]
    simpa using List.mem_map_of_mem (fun x => x.itemId) ha
  simp [qtyOf, hnone]

lemma qtyOf_nonneg {entries : List SelectedItemEntry}
    (h : ∀ e ∈ entries, 0 < e.quantity) (itemId : String) :
    0 ≤ qtyOf entries itemId := by
  unfold qtyOf
  cases hf : entries.find? (fun x => x.itemId == itemId) with
  | none => simp
  | some e => exact le_of_lt (h e (List.mem_of_find?_eq_some hf))

lemma filter_quantity_sum {entries : List SelectedItemEntry}
    (hnd : (entries.map (fun e => e.itemId)).Nodup) (itemId : String) :
    ((entries.filter (fun e => e.itemId == itemId)).map (fun e => e.quantity)).sum
      = qtyOf entries itemId := by
  induction entries with
  | nil => simp [qtyOf]
  | cons a l ih =>
    rcases List.nodup_cons.mp hnd with ⟨hnot, hnd'⟩
    by_cases ha : a.itemId = itemId
    · have hnone : l.filter (fun e => e.itemId == itemId) = [] := by
        rw [List.filter_eq_nil_iff]
        intro e he hbeq
        have heq : e.itemId = itemId := by simpa using hbeq
        apply hnot
        show a.itemId ∈ _
        rw [ha, ← heq]
        simpa using List.mem_map_of_mem (fun x => x.itemId) he
      simp [List.filter_cons, ha, hnone, qtyOf, List.find?_cons]
    · simp only [List.filter_cons]
      rw [if_neg (by simpa using ha)]
      rw [ih hnd']
      simp [qtyOf, List.find?_cons, ha]

lemma lookupStock_cons (p : String × Int) (m : List (String × Int)) (i : String) :
    Worker.lookupStock (p :: m) i =
      if p.1 = i then p.2 else Worker.lookupStock m i := by
  by_cases hp : p.1 = i
  · simp [Worker.lookupStock, List.find?_cons, hp]
  · simp [Worker.lookupStock, List.find?_cons, hp]

lemma setStock_cons (p : String × Int) (m : List (String × Int))
    (itemId : String) (v : Int) :
    Worker.setStock (p :: m) itemId v =
      (if p.1 = itemId then (p.1, v) else p) :: Worker.setStock m itemId v := by
  by_cases hp : p.1 = itemId <;> simp [Worker.setStock, hp]

lemma lookupStock_initMap (items : List Item) (itemId : String) :
    Worker.lookupStock (items.map (fun it => (it.id, it.currentStock))) itemId =
      match findItem items itemId with
      | some it => it.currentStock
      | none => 0 := by
  induction items with
  | nil => simp [Worker.lookupStock, findItem]
  | cons a l ih =>
    rw [List.map_cons, lookupStock_cons]
    by_cases ha : a.id = itemId
    · simp [findItem, List.find?_cons, ha]
    · simpa [findItem, List.find?_cons, ha] using ih

lemma lookupStock_setStock_ne {m : List (String × Int)} {itemId i : String}
    {v : Int} (h : ¬ i = itemId) :
    Worker.lookupStock (Worker.setStock m itemId v) i = Worker.lookupStock m i := by
  induction m with
  | nil => rfl
  | cons p l ih =>
    rw [setStock_cons, lookupStock_cons, lookupStock_cons]
    have hkey : (if p.1 = itemId then ((p.1, v) : String × Int) else p).1 = p.1 := by
      split <;> rfl
    rw [hkey]
    by_cases hp : p.1 = i
    · rw [if_pos hp, if_pos hp]
      have h1 : ¬ p.1 = itemId := by rw [hp]; exact h
      rw [if_neg h1]
    · rw [if_neg hp, if_neg hp]
      exact ih

lemma mem_dedupIds {l : List String} :
    ∀ {seen a}, a ∈ Worker.dedupIds seen l ↔ a ∈ l ∧ a ∉ seen := by
  induction l with
  | nil => simp [Worker.dedupIds]
  | cons x xs ih =>
    intro seen a
    by_cases hx : x ∈ seen
    · rw [Worker.dedupIds, if_pos hx, ih]
      constructor
      · rintro ⟨h1, h2⟩; exact ⟨List.mem_cons_of_mem _ h1, h2⟩
      · rintro ⟨h1, h2⟩
        rcases List.mem_cons.mp h1 with rfl | h1'
        · exact absurd hx h2
        · exact ⟨h1', h2⟩
    · rw [Worker.dedupIds, if_neg hx]
      constructor
      · intro h
        rcases List.mem_cons.mp h with rfl | h'
        · exact ⟨List.mem_cons_self _ _, hx⟩
        · rcases ih.mp h' with ⟨h1, h2⟩
          exact ⟨List.mem_cons_of_mem _ h1, fun hs => h2 (List.mem_cons_of_mem _ hs)⟩
      · rintro ⟨h1, h2⟩
        rcases List.mem_cons.mp h1 with rfl | h1'
        · exact List.mem_cons_self _ _
        · by_cases hax : a = x
          · subst hax; exact List.mem_cons_self _ _
          · exact List.mem_cons_of_mem _ (ih.mpr ⟨h1', by
              intro hs
              rcases List.mem_cons.mp hs with h | h
              · exact hax h
              · exact h2 h⟩)

lemma nodup_dedupIds : ∀ (seen l : List String), (Worker.dedupIds seen l).Nodup := by
  intro seen l
  induction l generalizing seen with
  | nil => simp [Worker.dedupIds]
  | cons x xs ih =>
    by_cases hx : x ∈ seen
    · rw [Worker.dedupIds, if_pos hx]; exact ih seen
    · rw [Worker.dedupIds, if_neg hx]
      refine List.nodup_cons.mpr ⟨?_, ih (x :: seen)⟩
      intro hmem
      exact (mem_dedupIds.mp hmem).2 (List.mem_cons_self x seen)

lemma mem_involvedItemIds {oldItems newItems : List SelectedItemEntry} {itemId : String} :
    itemId ∈ Worker.involvedItemIds oldItems newItems ↔
      itemId ∈ oldItems.map (fun e => e.itemId)
      ∨ itemId ∈ newItems.map (fun e => e.itemId) := by
  rw [Worker.involvedItemIds, mem_dedupIds]
  simp

lemma nodup_involvedItemIds (oldItems newItems : List SelectedItemEntry) :
    (Worker.involvedItemIds oldItems newItems).Nodup :=
  nodup_dedupIds _ _

@[simp] lemma opsDelta_nil (itemId : String) : opsDelta [] itemId = 0 := rfl

lemma opsDelta_cons (p : String × Int) (ops : List (String × Int)) (itemId : String) :
    opsDelta (p :: ops) itemId =
      (if p.1 = itemId then p.2 else 0) + opsDelta ops itemId := by
  by_cases h : p.1 = itemId <;> simp [opsDelta, List.filter_cons, h]

lemma applyOps_eq_map : ∀ (ops : List (String × Int)) (inv : List Item),
    Worker.applyOps inv ops = inv.map (fun it =>
      { it with currentStock := it.currentStock + opsDelta ops it.id }) := by
  intro ops
  induction ops with
  | nil =>
    intro inv
    show inv = _
    have : ∀ it : Item, { it with currentStock := it.currentStock + opsDelta [] it.id } = it := by
      intro it; cases it; simp
    conv_lhs => rw [← List.map_id inv]
    exact (List.map_congr_left (fun a _ => (this a).symm)).symm ▸ rfl
  | cons p ops ih =>
    intro inv
    show Worker.applyOps (Worker.applyStockAdd inv p.1 p.2) ops = _
    rw [ih, Worker.applyStockAdd, List.map_map]
    apply List.map_congr_left
    intro it _
    by_cases h : it.id = p.1
    · simp only [Function.comp]
      rw [if_pos (by simpa using h)]
      have : p.1 = it.id := h.symm
      simp [opsDelta_cons, this]
      omega
    · simp only [Function.comp]
      rw [if_neg (by simpa using h)]
      have : ¬ p.1 = it.id := fun hc => h hc.symm
      simp [opsDelta_cons, this]

lemma opsDelta_filterMap {g : String → Option (String × Int)}
    (hg : ∀ itemId p, g itemId = some p → p.1 = itemId) :
    ∀ (ids : List String), ids.Nodup → ∀ i,
      opsDelta (ids.filterMap g) i =
        if i ∈ ids then (match g i with | some p => p.2 | none => 0) else 0 := by
  intro ids
  induction ids with
  | nil => intro _ i; simp
  | cons x rest ih =>
    intro hnd i
    rcases List.nodup_cons.mp hnd with ⟨hnotin, hnd'⟩
    rw [List.filterMap_cons]
    cases hgx : g x with
    | none =>
      rw [ih hnd' i]
      by_cases hi : i = x
      · subst hi
        simp [hnotin, hgx]
      · simp [List.mem_cons, hi]
    | some p =>
      have hp1 : p.1 = x := hg _ _ hgx
      rw [opsDelta_cons, ih hnd' i]
      by_cases hi : i = x
      · subst hi
        simp [hp1, hgx, hnotin]
      · have : ¬ p.1 = i := by rw [hp1]; exact fun hc => hi hc.symm
        simp [this, List.mem_cons, hi]

/-! ## Lemmas about the stock-change computation and the reservation ledger -/

lemma stockChangeFor_eq {oldRes newRes : Bool} {oq nq : Int}
    (ho : 0 ≤ oq) (hn : 0 ≤ nq) :
    Worker.stockChangeFor oldRes newRes oq nq =
      (if oldRes then oq else 0) - (if newRes then nq else 0) := by
  cases oldRes <;> cases newRes <;> simp [Worker.stockChangeFor] <;> omega

lemma stockChangeFor_zero (oldRes newRes : Bool) :
    Worker.stockChangeFor oldRes newRes 0 0 = 0 := by
  cases oldRes <;> cases newRes <;> simp [Worker.stockChangeFor]

lemma scOf_eq {oldItems newItems : List SelectedItemEntry} {oldRes newRes : Bool}
    (ho : ∀ e ∈ oldItems, 0 < e.quantity) (hn : ∀ e ∈ newItems, 0 < e.quantity)
    (itemId : String) :
    scOf oldItems newItems oldRes newRes itemId =
      (if oldRes then qtyOf oldItems itemId else 0)
      - (if newRes then qtyOf newItems itemId else 0) :=
  stockChangeFor_eq (qtyOf_nonneg ho itemId) (qtyOf_nonneg hn itemId)

lemma scOf_eq_zero_of_not_involved {oldItems newItems : List SelectedItemEntry}
    {oldRes newRes : Bool} {itemId : String}
    (h : itemId ∉ Worker.involvedItemIds oldItems newItems) :
    scOf oldItems newItems oldRes newRes itemId = 0 := by
  have hid : itemId ∉ oldItems.map (fun e => e.itemId)
      ∧ itemId ∉ newItems.map (fun e => e.itemId) := by
    constructor <;> intro hc <;> exact h (mem_involvedItemIds.mpr (by tauto))
  rw [scOf, qtyOf_eq_zero hid.1, qtyOf_eq_zero hid.2, stockChangeFor_zero]

lemma appContribution_nonneg {app : RentalApplication}
    (h : ∀ e ∈ app.items, 0 < e.quantity) (itemId : String) :
    0 ≤ appContribution app itemId := by
  unfold appContribution
  split
  · apply List.sum_nonneg
    intro x hx
    rcases List.mem_map.mp hx with ⟨e, he, rfl⟩
    exact le_of_lt (h e (List.mem_of_mem_filter he))
  · exact le_refl 0

lemma appContribution_eq {app : RentalApplication}
    (hnd : (app.items.map (fun e => e.itemId)).Nodup) (itemId : String) :
    appContribution app itemId =
      if reservedStatus app.status then qtyOf app.items itemId else 0 := by
  unfold appContribution
  split <;> simp_all [filter_quantity_sum hnd itemId]

lemma reservedQty_nonneg {rentals : List RentalApplication}
    (h : ∀ app ∈ rentals, ∀ e ∈ app.items, 0 < e.quantity) (itemId : String) :
    0 ≤ reservedQty rentals itemId := by
  apply List.sum_nonneg
  intro x hx
  rcases List.mem_map.mp hx with ⟨a, ha, rfl⟩
  exact appContribution_nonneg (h a ha) itemId

lemma appContribution_le_reservedQty {rentals : List RentalApplication}
    (h : ∀ app ∈ rentals, ∀ e ∈ app.items, 0 < e.quantity)
    {app : RentalApplication} (hmem : app ∈ rentals) (itemId : String) :
    appContribution app itemId ≤ reservedQty rentals itemId := by
  apply List.single_le_sum
  · intro x hx
    rcases List.mem_map.mp hx with ⟨a, ha, rfl⟩
    exact appContribution_nonneg (h a ha) itemId
  · exact List.mem_map_of_mem (fun a => appContribution a itemId) hmem

lemma reservedQty_append (l1 l2 : List RentalApplication) (itemId : String) :
    reservedQty (l1 ++ l2) itemId = reservedQty l1 itemId + reservedQty l2 itemId := by
  simp [reservedQty]

lemma reservedQty_cons (a : RentalApplication) (l : List RentalApplication)
    (itemId : String) :
    reservedQty (a :: l) itemId = appContribution a itemId + reservedQty l itemId := by
  simp [reservedQty]

lemma replaceApp_map_id (rentals : List RentalApplication) (b : RentalApplication) :
    (Worker.replaceApp rentals b).map (fun a => a.id) = rentals.map (fun a => a.id) := by
  unfold Worker.replaceApp
  rw [List.map_map]
  apply List.map_congr_left
  intro a _
  by_cases h : a.id = b.id
  · simp [Function.comp, h]
  · simp [Function.comp, h]

lemma mem_replaceApp {rentals : List RentalApplication} {b app : RentalApplication}
    (h : app ∈ Worker.replaceApp rentals b) : app ∈ rentals ∨ app = b := by
  unfold Worker.replaceApp at h
  rcases List.mem_map.mp h with ⟨a, ha, heq⟩
  by_cases hid : a.id = b.id
  · right; rw [← heq]; simp [hid]
  · left; rw [← heq]; simpa [hid] using ha

lemma replaceApp_of_no_match {rentals : List RentalApplication} {b : RentalApplication}
    (h : ∀ a ∈ rentals, ¬ a.id = b.id) : Worker.replaceApp rentals b = rentals := by
  unfold Worker.replaceApp
  conv_rhs => rw [← List.map_id rentals]
  apply List.map_congr_left
  intro a ha
  simp [h a ha]

lemma reservedQty_replaceApp {rentals : List RentalApplication}
    (hnd : (rentals.map (fun a => a.id)).Nodup) {orig b : RentalApplication}
    (hmem : orig ∈ rentals) (hid : b.id = orig.id) (itemId : String) :
    reservedQty (Worker.replaceApp rentals b) itemId =
      reservedQty rentals itemId - appContribution orig itemId
        + appContribution b itemId := by
  induction rentals with
  | nil => cases hmem
  | cons a l ih =>
    rcases List.nodup_cons.mp hnd with ⟨hnot, hnd'⟩
    rcases List.mem_cons.mp hmem with rfl | hmem'
    · have hhead : Worker.replaceApp (orig :: l) b =
          b :: Worker.replaceApp l b := by
        unfold Worker.replaceApp
        simp [hid]
      rw [hhead, reservedQty_cons]
      have hrest : Worker.replaceApp l b = l := by
        apply replaceApp_of_no_match
        intro x hx he
        apply hnot
        show orig.id ∈ _
        rw [← hid, ← he]
        simpa using List.mem_map_of_mem (fun a => a.id) hx
      rw [hrest, reservedQty_cons]
      ring
    · have hne : ¬ a.id = b.id := by
        intro he
        apply hnot
        show a.id ∈ _
        rw [he, hid]
        simpa using List.mem_map_of_mem (fun x => x.id) hmem'
      have hhead : Worker.replaceApp (a :: l) b = a :: Worker.replaceApp l b := by
        unfold Worker.replaceApp
        simp [hne]
      rw [hhead, reservedQty_cons, ih hnd' hmem', reservedQty_cons]
      ring

lemma reservedQty_filter_out {rentals : List RentalApplication}
    (hnd : (rentals.map (fun a => a.id)).Nodup) {orig : RentalApplication}
    (hmem : orig ∈ rentals) (itemId : String) :
    reservedQty (rentals.filter (fun a => !(a.id == orig.id))) itemId =
      reservedQty rentals itemId - appContribution orig itemId := by
  induction rentals with
  | nil => cases hmem
  | cons a l ih =>
    rcases List.nodup_cons.mp hnd with ⟨hnot, hnd'⟩
    rcases List.mem_cons.mp hmem with rfl | hmem'
    · rw [List.filter_cons]
      simp only [beq_self_eq_true, Bool.not_true]
      rw [if_neg (by simp)]
      have hrest : l.filter (fun a => !(a.id == orig.id)) = l := by
        rw [List.filter_eq_self]
        intro x hx
        simp only [Bool.not_eq_true']
        rw [beq_eq_false_iff_ne]
        intro he
        apply hnot
        show orig.id ∈ _
        rw [← he]
        simpa using List.mem_map_of_mem (fun a => a.id) hx
      rw [hrest, reservedQty_cons]
      ring
    · have hne : ¬ a.id = orig.id := by
        intro he
        apply hnot
        show a.id ∈ _
        rw [he]
        simpa using List.mem_map_of_mem (fun x => x.id) hmem'
      rw [List.filter_cons]
      rw [if_pos (by simpa using hne)]
      rw [reservedQty_cons, ih hnd' hmem', reservedQty_cons]
      ring

/-! ## The reconciliation loop under the store invariant -/

lemma reconcileItemDelta_zero (cur init : Int) :
    Worker.reconcileItemDelta cur init 0 = .ok none := by
  simp [Worker.reconcileItemDelta]

lemma reconcileItemDelta_err {cur init sc : Int} (hsc : sc ≠ 0)
    (hneg : cur + sc < 0) :
    Worker.reconcileItemDelta cur init sc = .error .insufficientStock := by
  unfold Worker.reconcileItemDelta
  rw [if_pos hsc, if_pos hneg]

lemma reconcileItemDelta_no_cap {cur init sc : Int} (hsc : sc ≠ 0)
    (hnoneg : ¬ cur + sc < 0) (hcap : cur + sc ≤ init) :
    Worker.reconcileItemDelta cur init sc = .ok (some sc) := by
  unfold Worker.reconcileItemDelta
  rw [if_pos hsc, if_neg hnoneg]
  have hcond : ¬ (init < cur + sc ∧ 0 < sc) := by
    rintro ⟨h1, _⟩; omega
  simp [hcond, hsc]

lemma reconcileLoop_ok
    (allDbItems : List Item) (oldItems newItems : List SelectedItemEntry)
    (oldRes newRes : Bool) :
    ∀ (ids : List String) (m : List (String × Int)), ids.Nodup →
    (∀ i ∈ ids, ∀ it, findItem allDbItems i = some it →
        Worker.lookupStock m i = it.currentStock) →
    (∀ i ∈ ids, ∀ it, findItem allDbItems i = some it →
        it.currentStock + scOf oldItems newItems oldRes newRes i ≤ it.initialStock) →
    ∀ ops m', Worker.reconcileLoop allDbItems oldItems newItems oldRes newRes ids m
        = .ok (ops, m') →
      ops = expectedOps allDbItems oldItems newItems oldRes newRes ids
      ∧ ∀ i ∈ ids, ∀ it, findItem allDbItems i = some it →
          scOf oldItems newItems oldRes newRes i ≠ 0 →
          0 ≤ it.currentStock + scOf oldItems newItems oldRes newRes i := by
  intro ids
  induction ids with
  | nil =>
    intro m _ _ _ ops m' h
    simp only [Worker.reconcileLoop, Except.ok.injEq, Prod.mk.injEq] at h
    refine ⟨?_, by simp⟩
    rw [← h.1]
    rfl
  | cons i0 rest ih =>
    intro m hnd hagree hcap ops m' hrun
    rcases List.nodup_cons.mp hnd with ⟨hni, hnd'⟩
    rw [Worker.reconcileLoop] at hrun
    cases hfind : findItem allDbItems i0 with
    | none =>
      rw [hfind] at hrun
      obtain ⟨hops, hrest⟩ := ih m hnd'
        (fun i hi => hagree i (List.mem_cons_of_mem _ hi))
        (fun i hi => hcap i (List.mem_cons_of_mem _ hi)) ops m' hrun
      refine ⟨?_, ?_⟩
      · rw [hops]
        simp [expectedOps, List.filterMap_cons, hfind]
      · intro i hi it hit hsc
        rcases List.mem_cons.mp hi with rfl | hi'
        · rw [hfind] at hit; cases hit
        · exact hrest i hi' it hit hsc
    | some itemDetails =>
      rw [hfind] at hrun
      simp only at hrun
      have hcur : Worker.lookupStock m i0 = itemDetails.currentStock :=
        hagree i0 (List.mem_cons_self _ _) itemDetails hfind
      have hsceq : Worker.stockChangeFor oldRes newRes (qtyOf oldItems i0)
          (qtyOf newItems i0) = scOf oldItems newItems oldRes newRes i0 := rfl
      rw [hcur, hsceq] at hrun
      by_cases hsc : scOf oldItems newItems oldRes newRes i0 = 0
      · rw [hsc, reconcileItemDelta_zero] at hrun
        simp only at hrun
        obtain ⟨hops, hrest⟩ := ih m hnd'
          (fun i hi => hagree i (List.mem_cons_of_mem _ hi))
          (fun i hi => hcap i (List.mem_cons_of_mem _ hi)) ops m' hrun
        refine ⟨?_, ?_⟩
        · rw [hops]
          simp [expectedOps, List.filterMap_cons, hfind, hsc]
        · intro i hi it hit hscne
          rcases List.mem_cons.mp hi with rfl | hi'
          · rw [hfind] at hit
            cases hit
            exact absurd hsc hscne
          · exact hrest i hi' it hit hscne
      · by_cases hneg : itemDetails.currentStock
            + scOf oldItems newItems oldRes newRes i0 < 0
        · rw [reconcileItemDelta_err hsc hneg] at hrun
          simp at hrun
        · have hcapi : itemDetails.currentStock
              + scOf oldItems newItems oldRes newRes i0
                ≤ itemDetails.initialStock :=
            hcap i0 (List.mem_cons_self _ _) itemDetails hfind
          rw [reconcileItemDelta_no_cap hsc hneg hcapi] at hrun
          simp only at hrun
          cases hrec : Worker.reconcileLoop allDbItems oldItems newItems oldRes newRes
              rest (Worker.setStock m i0 (itemDetails.currentStock
                + scOf oldItems newItems oldRes newRes i0)) with
          | error e => rw [hrec] at hrun; simp at hrun
          | ok pr =>
            obtain ⟨ops0, m0⟩ := pr
            rw [hrec] at hrun
            simp only [Except.ok.injEq, Prod.mk.injEq] at hrun
            obtain ⟨hops, hrest⟩ := ih
              (Worker.setStock m i0 (itemDetails.currentStock
                + scOf oldItems newItems oldRes newRes i0))
              hnd'
              (fun i hi it hit => by
                have hne : ¬ i = i0 := fun he => hni (he ▸ hi)
                rw [lookupStock_setStock_ne hne]
                exact hagree i (List.mem_cons_of_mem _ hi) it hit)
              (fun i hi => hcap i (List.mem_cons_of_mem _ hi)) ops0 m0 hrec
            refine ⟨?_, ?_⟩
            · rw [← hrun.1, hops]
              simp [expectedOps, List.filterMap_cons, hfind, hsc]
            · intro i hi it hit hscne
              rcases List.mem_cons.mp hi with rfl | hi'
              · rw [hfind] at hit
                cases hit
                omega
              · exact hrest i hi' it hit hscne

/-- Characterization of a successful second-variant reconciliation under the
store invariant: the final application is the merged core with the new
items and recomputed costs; the issued stock updates are exactly the nonzero
per-item net changes (no cap fires); the resulting inventory moves every
item by its net change, staying within `[0, initialStock]`; and the ledger
row is replaced. -/
lemma manageRentalUpdate_ok {st : DBState} {orig core : RentalApplication}
    {newItems : List SelectedItemEntry} {dep : Int}
    {fa : RentalApplication} {ops : List (String × Int)} {st' : DBState}
    (hInv : Inv st) (hmem : orig ∈ st.rentals) (hnew : entriesWF newItems)
    (h : Worker.manageRentalUpdate st orig core newItems dep = .ok (fa, ops, st')) :
    fa = { core with
           id := orig.id
           items := newItems
           totalItemCost := (calculateRentalCosts newItems st.items dep).1
           deposit := dep
           totalAmount := (calculateRentalCosts newItems st.items dep).1 + dep }
    ∧ ops = expectedOps st.items orig.items newItems (reservedStatus orig.status)
        (reservedStatus core.status) (Worker.involvedItemIds orig.items newItems)
    ∧ st'.items = st.items.map (fun it =>
        { it with currentStock := (it.currentStock
            + scOf orig.items newItems (reservedStatus orig.status)
                (reservedStatus core.status) it.id) })
    ∧ st'.rentals = Worker.replaceApp st.rentals fa
    ∧ ∀ it ∈ st.items,
        0 ≤ it.currentStock + scOf orig.items newItems (reservedStatus orig.status)
              (reservedStatus core.status) it.id
        ∧ it.currentStock + scOf orig.items newItems (reservedStatus orig.status)
              (reservedStatus core.status) it.id ≤ it.initialStock := by
  obtain ⟨hiw, hrnd, hled, hbounds, hcons⟩ := hInv
  have horig := hled orig hmem
  set oldRes := reservedStatus orig.status with hor
  set newRes := reservedStatus core.status with hnr
  set ids := Worker.involvedItemIds orig.items newItems with hids
  have hcap : ∀ i ∈ ids, ∀ it, findItem st.items i = some it →
      it.currentStock + scOf orig.items newItems oldRes newRes i ≤ it.initialStock := by
    intro i hi it hfindi
    have hmemit := findItem_mem hfindi
    have hitid := findItem_id hfindi
    have hc := hcons it hmemit
    have hcontrib_le :=
      appContribution_le_reservedQty (fun a ha => (hled a ha).2) hmem it.id
    have hcontrib_eq := appContribution_eq horig.1 it.id
    have hsc := @scOf_eq orig.items newItems oldRes newRes horig.2 hnew.2 it.id
    have hnn := qtyOf_nonneg hnew.2 it.id
    have hgn : 0 ≤ (if newRes then qtyOf newItems it.id else 0) := by
      split
      · exact hnn
      · exact le_refl 0
    rw [← hitid, hsc]
    rw [← hor] at hcontrib_eq
    omega
  have hagree : ∀ i ∈ ids, ∀ it, findItem st.items i = some it →
      Worker.lookupStock (st.items.map (fun it => (it.id, it.currentStock))) i
        = it.currentStock := by
    intro i hi it hfindi
    rw [lookupStock_initMap, hfindi]
  unfold Worker.manageRentalUpdate at h
  simp only at h
  cases hrec : Worker.reconcileLoop st.items orig.items newItems oldRes newRes ids
      (st.items.map (fun it => (it.id, it.currentStock))) with
  | error e =>
    rw [hor, hnr, hids] at hrec
    rw [hrec] at h
    simp at h
  | ok pr =>
    obtain ⟨ops0, m0⟩ := pr
    obtain ⟨hops0, hpos⟩ := reconcileLoop_ok st.items orig.items newItems oldRes newRes
      ids (st.items.map (fun it => (it.id, it.currentStock)))
      (nodup_involvedItemIds _ _) hagree hcap ops0 m0 hrec
    rw [hor, hnr, hids] at hrec
    rw [hrec] at h
    simp only [Except.ok.injEq, Prod.mk.injEq] at h
    obtain ⟨hfa, hops, hst'⟩ := h
    have hscbounds : ∀ it ∈ st.items,
        0 ≤ it.currentStock + scOf orig.items newItems oldRes newRes it.id
        ∧ it.currentStock + scOf orig.items newItems oldRes newRes it.id
            ≤ it.initialStock := by
      intro it hmemit
      have hfindit := findItem_self hiw hmemit
      by_cases hin : it.id ∈ ids
      · refine ⟨?_, hcap it.id hin it hfindit⟩
        by_cases hsc0 : scOf orig.items newItems oldRes newRes it.id = 0
        · rw [hsc0]
          have := hbounds it hmemit
          omega
        · exact hpos it.id hin it hfindit hsc0
      · rw [scOf_eq_zero_of_not_involved hin]
        have := hbounds it hmemit
        constructor <;> omega
    have hdelta : ∀ it ∈ st.items,
        opsDelta ops0 it.id = scOf orig.items newItems oldRes newRes it.id := by
      intro it hmemit
      have hfindit := findItem_self hiw hmemit
      rw [hops0, expectedOps]
      rw [opsDelta_filterMap ?hg ids (nodup_involvedItemIds _ _) it.id]
      case hg =>
        intro i p hp
        cases hfi : findItem st.items i with
        | none => rw [hfi] at hp; cases hp
        | some itd =>
          rw [hfi] at hp
          by_cases hsc0 : scOf orig.items newItems oldRes newRes i = 0
          · rw [if_neg (by simpa using hsc0)] at hp; cases hp
          · rw [if_pos hsc0] at hp
            cases hp
            rfl
      by_cases hin : it.id ∈ ids
      · rw [if_pos hin, hfindit]
        by_cases hsc0 : scOf orig.items newItems oldRes newRes it.id = 0
        · simp [hsc0]
        · simp [hsc0]
      · rw [if_neg hin, scOf_eq_zero_of_not_involved hin]
    refine ⟨hfa.symm, ?_, ?_, ?_, hscbounds⟩
    · rw [← hops, hops0]
    · rw [← hst']
      show Worker.applyOps st.items ops0 = _
      rw [applyOps_eq_map]
      apply List.map_congr_left
      intro it hmemit
      rw [hdelta it hmemit]
    · rw [← hst']
      show Worker.replaceApp st.rentals _ = Worker.replaceApp st.rentals fa
      rw [hfa]

/-- A successful second-variant reconciliation preserves the store invariant
(in particular the conservation law and the stock bounds). -/
lemma manageRentalUpdate_preserves_Inv {st : DBState}
    {orig core : RentalApplication} {newItems : List SelectedItemEntry}
    {dep : Int} {fa : RentalApplication} {ops : List (String × Int)} {st' : DBState}
    (hInv : Inv st) (hmem : orig ∈ st.rentals) (hnew : entriesWF newItems)
    (h : Worker.manageRentalUpdate st orig core newItems dep = .ok (fa, ops, st')) :
    Inv st' := by
  obtain ⟨hfa, hops, hitems, hrentals, hbnd⟩ := manageRentalUpdate_ok hInv hmem hnew h
  obtain ⟨hiw, hrnd, hled, hbounds, hcons⟩ := hInv
  have horig := hled orig hmem
  have hfaid : fa.id = orig.id := by rw [hfa]
  have hfaitems : fa.items = newItems := by rw [hfa]
  have hfastatus : fa.status = core.status := by rw [hfa]
  refine ⟨?_, ?_, ?_, ?_, ?_⟩
  · show (List.map (fun it => it.id) st'.items).Nodup
    rw [hitems, List.map_map]
    simpa [Function.comp] using hiw
  · show (List.map (fun a => a.id) st'.rentals).Nodup
    rw [hrentals, replaceApp_map_id]
    exact hrnd
  · intro app happ
    rw [hrentals] at happ
    rcases mem_replaceApp happ with hin | rfl
    · exact hled app hin
    · rw [hfaitems]; exact hnew
  · intro it' hit'
    rw [hitems] at hit'
    rcases List.mem_map.mp hit' with ⟨it, hmemit, rfl⟩
    have := hbnd it hmemit
    constructor
    · exact this.1
    · exact this.2
  · intro it' hit'
    rw [hitems] at hit'
    rcases List.mem_map.mp hit' with ⟨it, hmemit, rfl⟩
    show it.currentStock + scOf orig.items newItems (reservedStatus orig.status)
        (reservedStatus core.status) it.id + reservedQty st'.rentals it.id
      = it.initialStock
    rw [hrentals, reservedQty_replaceApp hrnd hmem hfaid it.id]
    have hcfa : appContribution fa it.id =
        if reservedStatus core.status then qtyOf newItems it.id else 0 := by
      rw [appContribution_eq (by rw [hfaitems]; exact hnew.1) it.id, hfastatus, hfaitems]
    have hcor : appContribution orig it.id =
        if reservedStatus orig.status then qtyOf orig.items it.id else 0 :=
      appContribution_eq horig.1 it.id
    have hsc := @scOf_eq orig.items newItems (reservedStatus orig.status)
      (reservedStatus core.status) horig.2 hnew.2 it.id
    have hc := hcons it hmemit
    rw [hsc, hcfa, hcor]
    omega

/-! ## The create path -/

lemma validateCreate_ok {allDbItems : List Item} :
    ∀ {entries : List SelectedItemEntry},
      Worker.validateCreate allDbItems entries = .ok () ↔
      ∀ e ∈ entries, ∃ it, findItem allDbItems e.itemId = some it
        ∧ e.quantity ≤ it.currentStock := by
  intro entries
  induction entries with
  | nil => simp [Worker.validateCreate]
  | cons e rest ih =>
    rw [Worker.validateCreate]
    cases hf : findItem allDbItems e.itemId with
    | none =>
      simp only
      constructor
      · intro h; cases h
      · intro h
        obtain ⟨it, hit, _⟩ := h e (List.mem_cons_self _ _)
        rw [hf] at hit
        cases hit
    | some itemDetail =>
      simp only
      by_cases hlt : itemDetail.currentStock < e.quantity
      · rw [if_pos hlt]
        constructor
        · intro h; cases h
        · intro h
          obtain ⟨it, hit, hle⟩ := h e (List.mem_cons_self _ _)
          rw [hf] at hit
          cases hit
          omega
      · rw [if_neg hlt, ih]
        constructor
        · intro h x hx
          rcases List.mem_cons.mp hx with rfl | hx'
          · exact ⟨itemDetail, hf, by omega⟩
          · exact h x hx'
        · intro h x hx
          exact h x (List.mem_cons_of_mem _ hx)

lemma validateCreate_insufficient {allDbItems : List Item} :
    ∀ {entries : List SelectedItemEntry},
      (∀ e ∈ entries, ∃ it, findItem allDbItems e.itemId = some it) →
      (∃ e ∈ entries, ∀ it, findItem allDbItems e.itemId = some it →
          it.currentStock < e.quantity) →
      Worker.validateCreate allDbItems entries = .error .insufficientStock := by
  intro entries
  induction entries with
  | nil => rintro _ ⟨e, he, _⟩; cases he
  | cons e rest ih =>
    rintro hres ⟨w, hw, hcond⟩
    obtain ⟨it0, hf0⟩ := hres e (List.mem_cons_self _ _)
    rw [Worker.validateCreate, hf0]
    simp only
    by_cases hlt : it0.currentStock < e.quantity
    · rw [if_pos hlt]
    · rw [if_neg hlt]
      rcases List.mem_cons.mp hw with rfl | hw'
      · exact absurd (hcond it0 hf0) hlt
      · exact ih (fun x hx => hres x (List.mem_cons_of_mem _ hx)) ⟨w, hw', hcond⟩

lemma condDecAll_eq {entries : List SelectedItemEntry}
    (hnd : (entries.map (fun e => e.itemId)).Nodup) :
    ∀ inv, Worker.condDecAll inv entries = inv.map (fun it =>
      match entries.find? (fun e => e.itemId == it.id) with
      | some e => if e.quantity ≤ it.currentStock then
          { it with currentStock := it.currentStock - e.quantity } else it
      | none => it) := by
  induction entries with
  | nil =>
    intro inv
    show inv = _
    conv_lhs => rw [← List.map_id inv]
    apply List.map_congr_left
    intro it _
    simp
  | cons e rest ih =>
    intro inv
    rcases List.nodup_cons.mp hnd with ⟨hnot, hnd'⟩
    show Worker.condDecAll (Worker.condDecrement inv e.itemId e.quantity) rest = _
    rw [ih hnd', Worker.condDecrement, List.map_map]
    apply List.map_congr_left
    intro it _
    simp only [Function.comp]
    by_cases hid : it.id = e.itemId
    · have hrestnone : rest.find? (fun x => x.itemId == it.id) = none := by
        rw [List.find?_eq_none]
        intro a ha hbeq
        have haid : a.itemId = it.id := by simpa using hbeq
        apply hnot
        show e.itemId ∈ _
        rw [← hid, ← haid]
        simpa using List.mem_map_of_mem (fun x => x.itemId) ha
      have hbeq : (it.id == e.itemId) = true := by simpa using hid
      rw [List.find?_cons_of_pos _ (by simpa using hid.symm)]
      by_cases hq : e.quantity ≤ it.currentStock <;> simp [hbeq, hq, hrestnone]
    · rw [if_neg (by
        rintro ⟨hbeq, _⟩
        exact hid (by simpa using hbeq))]
      rw [List.find?_cons_of_neg _ (by simpa using fun hc : e.itemId = it.id => hid hc.symm)]

lemma condDecAll_of_validated {items : List Item} (hiw : itemsWF items)
    {entries : List SelectedItemEntry}
    (hnd : (entries.map (fun e => e.itemId)).Nodup)
    (hval : ∀ e ∈ entries, ∃ it, findItem items e.itemId = some it
      ∧ e.quantity ≤ it.currentStock) :
    Worker.condDecAll items entries = items.map (fun it =>
      { it with currentStock := it.currentStock - qtyOf entries it.id }) := by
  rw [condDecAll_eq hnd]
  apply List.map_congr_left
  intro it hmemit
  cases hf : entries.find? (fun e => e.itemId == it.id) with
  | none =>
    have hq : qtyOf entries it.id = 0 := by simp [qtyOf, hf]
    rw [hq]
    cases it
    simp
  | some e =>
    have hee : e ∈ entries := List.mem_of_find?_eq_some hf
    have heid : e.itemId = it.id := by simpa using List.find?_some hf
    obtain ⟨it2, hfind2, hle⟩ := hval e hee
    rw [heid, findItem_self hiw hmemit] at hfind2
    injection hfind2 with h2
    subst h2
    have hq : qtyOf entries it.id = e.quantity := by simp [qtyOf, hf]
    rw [hq]
    simp only
    rw [if_pos hle]

/-- A successful create: the fresh PENDING row is appended and every item
loses exactly its requested quantity (each conditional decrement's guard is
re-satisfied at commit time). -/
lemma createHandler_ok {st : DBState} {req : Worker.CreateReq}
    {newId applicationDate : String} {dep : Int}
    (hiw : itemsWF st.items)
    (hnd : (req.items.map (fun e => e.itemId)).Nodup)
    (hval : ∀ e ∈ req.items, ∃ it, findItem st.items e.itemId = some it
      ∧ e.quantity ≤ it.currentStock) :
    Worker.createHandler st req newId applicationDate dep = .ok
      ({ items := st.items.map (fun it =>
            { it with currentStock := it.currentStock - qtyOf req.items it.id })
         rentals := st.rentals ++ [Worker.mkNewApplication req newId applicationDate
            (calculateRentalCosts req.items st.items dep).1 dep] },
       Worker.mkNewApplication req newId applicationDate
         (calculateRentalCosts req.items st.items dep).1 dep) := by
  unfold Worker.createHandler
  rw [validateCreate_ok.mpr hval]
  unfold Worker.commitCreate
  simp only
  rw [Worker.condDecAll, ← Worker.condDecAll, condDecAll_of_validated hiw hnd hval]

/-- The quantity requested for each stored item is bounded by its current
stock after a passing validation. -/
lemma qtyOf_le_stock {st : DBState} {entries : List SelectedItemEntry}
    (hiw : itemsWF st.items) (hbounds : stockBounds st)
    (hval : ∀ e ∈ entries, ∃ it, findItem st.items e.itemId = some it
      ∧ e.quantity ≤ it.currentStock)
    {it : Item} (hmemit : it ∈ st.items) :
    qtyOf entries it.id ≤ it.currentStock := by
  cases hf : entries.find? (fun e => e.itemId == it.id) with
  | none =>
    have hq : qtyOf entries it.id = 0 := by simp [qtyOf, hf]
    rw [hq]
    exact (hbounds it hmemit).1
  | some e =>
    have hee : e ∈ entries := List.mem_of_find?_eq_some hf
    have heid : e.itemId = it.id := by simpa using List.find?_some hf
    obtain ⟨it2, hfind2, hle⟩ := hval e hee
    rw [heid, findItem_self hiw hmemit] at hfind2
    injection hfind2 with h2
    subst h2
    have hq : qtyOf entries it.id = e.quantity := by simp [qtyOf, hf]
    omega

/-- A successful create preserves the store invariant. -/
lemma createHandler_preserves_Inv {st : DBState} {req : Worker.CreateReq}
    {newId applicationDate : String} {dep : Int} {st1 : DBState}
    {app : RentalApplication}
    (hInv : Inv st) (hreq : entriesWF req.items)
    (hfresh : newId ∉ st.rentals.map (fun a => a.id))
    (h : Worker.createHandler st req newId applicationDate dep = .ok (st1, app)) :
    Inv st1 := by
  obtain ⟨hiw, hrnd, hled, hbounds, hcons⟩ := hInv
  have hval : ∀ e ∈ req.items, ∃ it, findItem st.items e.itemId = some it
      ∧ e.quantity ≤ it.currentStock := by
    unfold Worker.createHandler at h
    cases hv : Worker.validateCreate st.items req.items with
    | error e => rw [hv] at h; cases h
    | ok u =>
      cases u
      exact validateCreate_ok.mp hv
  rw [createHandler_ok hiw hreq.1 hval] at h
  injection h with h
  injection h with h1 h2
  subst h1
  refine ⟨?_, ?_, ?_, ?_, ?_⟩
  · show itemsWF (st.items.map (fun it =>
      { it with currentStock := it.currentStock - qtyOf req.items it.id }))
    unfold itemsWF
    rw [List.map_map]
    simpa [Function.comp] using hiw
  · show (List.map (fun a => a.id) (st.rentals ++ [Worker.mkNewApplication req newId
      applicationDate (calculateRentalCosts req.items st.items dep).1 dep])).Nodup
    rw [List.map_append]
    rw [List.nodup_append]
    refine ⟨hrnd, by simp, ?_⟩
    intro x hx hy
    simp only [List.map_cons, List.map_nil, List.mem_cons, List.not_mem_nil,
      or_false] at hy
    have hyid : x = newId := hy
    rw [hyid] at hx
    exact absurd hx hfresh
  · intro a ha
    rcases List.mem_append.mp ha with hin | hself
    · exact hled a hin
    · simp only [List.mem_cons, List.not_mem_nil, or_false] at hself
      rw [hself]
      exact hreq
  · intro it' hit'
    rcases List.mem_map.mp hit' with ⟨it, hmemit, rfl⟩
    have hb := hbounds it hmemit
    have hle := qtyOf_le_stock hiw hbounds hval hmemit
    have hnn := qtyOf_nonneg hreq.2 it.id
    constructor
    · show 0 ≤ it.currentStock - qtyOf req.items it.id
      omega
    · show it.currentStock - qtyOf req.items it.id ≤ it.initialStock
      omega
  · intro it' hit'
    rcases List.mem_map.mp hit' with ⟨it, hmemit, rfl⟩
    show it.currentStock - qtyOf req.items it.id
        + reservedQty (st.rentals ++ [Worker.mkNewApplication req newId applicationDate
            (calculateRentalCosts req.items st.items dep).1 dep]) it.id
      = it.initialStock
    rw [reservedQty_append, reservedQty_cons]
    have hc := hcons it hmemit
    have hcontrib : appContribution (Worker.mkNewApplication req newId applicationDate
        (calculateRentalCosts req.items st.items dep).1 dep) it.id
        = qtyOf req.items it.id := by
      rw [appContribution_eq hreq.1 it.id]
      simp [Worker.mkNewApplication, reservedStatus]
    have hnil : reservedQty [] it.id = 0 := rfl
    rw [hnil, hcontrib]
    omega

/-! ## The cancel and admin-delete paths -/

/-- Restoring the quantities of a well-formed entry list adds each item's
stored quantity back. -/
lemma restore_items_eq {entries : List SelectedItemEntry}
    (hnd : (entries.map (fun e => e.itemId)).Nodup) (inv : List Item) :
    Worker.applyOps inv (entries.map (fun e => (e.itemId, e.quantity))) =
      inv.map (fun it =>
        { it with currentStock := it.currentStock + qtyOf entries it.id }) := by
  rw [applyOps_eq_map]
  apply List.map_congr_left
  intro it _
  have hdelta : opsDelta (entries.map (fun e => (e.itemId, e.quantity))) it.id
      = qtyOf entries it.id := by
    unfold opsDelta
    rw [← filter_quantity_sum hnd it.id, List.filter_map, List.map_map]
    rfl
  rw [hdelta]

lemma cancelHandler_ok {st : DBState} {rentalId : String}
    {app : RentalApplication}
    (hfind : st.rentals.find? (fun a => a.id == rentalId) = some app)
    (hpend : app.status = .PENDING) :
    Worker.cancelHandler st rentalId = .ok
      { items := Worker.applyOps st.items
          (app.items.map (fun e => (e.itemId, e.quantity)))
        rentals := st.rentals.filter (fun a => !(a.id == rentalId)) } := by
  unfold Worker.cancelHandler
  rw [hfind]
  simp only
  rw [if_neg (by simp [hpend])]

/-- Any success of the cancel handler required a stored PENDING row. -/
lemma cancelHandler_ok_inv {st : DBState} {rentalId : String} {st' : DBState}
    (h : Worker.cancelHandler st rentalId = .ok st') :
    ∃ app, st.rentals.find? (fun a => a.id == rentalId) = some app
      ∧ app.status = .PENDING := by
  unfold Worker.cancelHandler at h
  cases hfind : st.rentals.find? (fun a => a.id == rentalId) with
  | none => rw [hfind] at h; cases h
  | some app =>
    rw [hfind] at h
    simp only at h
    by_cases hs : app.status = .PENDING
    · exact ⟨app, rfl, hs⟩
    · rw [if_pos hs] at h
      cases h

/-- A full release of a reserved application's quantities keeps the store
invariant: used by both user cancel and admin delete. -/
lemma release_app_preserves_Inv {st : DBState} {app : RentalApplication}
    (hInv : Inv st) (hmem : app ∈ st.rentals)
    (hres : reservedStatus app.status = true) :
    Inv { items := Worker.applyOps st.items
            (app.items.map (fun e => (e.itemId, e.quantity)))
          rentals := st.rentals.filter (fun a => !(a.id == app.id)) } := by
  obtain ⟨hiw, hrnd, hled, hbounds, hcons⟩ := hInv
  have happ := hled app hmem
  rw [restore_items_eq happ.1]
  have hcontrib : ∀ itemId, appContribution app itemId = qtyOf app.items itemId := by
    intro itemId
    rw [appContribution_eq happ.1 itemId, if_pos hres]
  refine ⟨?_, ?_, ?_, ?_, ?_⟩
  · show itemsWF (st.items.map (fun it =>
      { it with currentStock := it.currentStock + qtyOf app.items it.id }))
    unfold itemsWF
    rw [List.map_map]
    simpa [Function.comp] using hiw
  · show (List.map (fun a => a.id) (st.rentals.filter (fun a => !(a.id == app.id)))).Nodup
    exact ((List.filter_sublist st.rentals).map (fun a => a.id)).nodup hrnd
  · intro a ha
    exact hled a (List.mem_of_mem_filter ha)
  · intro it' hit'
    rcases List.mem_map.mp hit' with ⟨it, hmemit, rfl⟩
    have hb := hbounds it hmemit
    have hc := hcons it hmemit
    have hnn := qtyOf_nonneg happ.2 it.id
    have hle : qtyOf app.items it.id ≤ reservedQty st.rentals it.id := by
      rw [← hcontrib]
      exact appContribution_le_reservedQty (fun a ha => (hled a ha).2) hmem it.id
    constructor
    · show 0 ≤ it.currentStock + qtyOf app.items it.id
      omega
    · show it.currentStock + qtyOf app.items it.id ≤ it.initialStock
      omega
  · intro it' hit'
    rcases List.mem_map.mp hit' with ⟨it, hmemit, rfl⟩
    show it.currentStock + qtyOf app.items it.id
        + reservedQty (st.rentals.filter (fun a => !(a.id == app.id))) it.id
      = it.initialStock
    rw [reservedQty_filter_out hrnd hmem it.id, hcontrib]
    have hc := hcons it hmemit
    omega

lemma cancelHandler_preserves_Inv {st : DBState} {rentalId : String} {st' : DBState}
    (hInv : Inv st) (h : Worker.cancelHandler st rentalId = .ok st') : Inv st' := by
  obtain ⟨app, hfind, hpend⟩ := cancelHandler_ok_inv h
  have happid : app.id = rentalId := by simpa using List.find?_some hfind
  have hmem := List.mem_of_find?_eq_some hfind
  rw [cancelHandler_ok hfind hpend] at h
  injection h with h
  subst h
  rw [← happid]
  exact release_app_preserves_Inv hInv hmem (by rw [hpend]; rfl)

lemma adminDeleteHandler_ok_cases {st : DBState} {rentalId : String} {st' : DBState}
    (h : Worker.adminDeleteHandler st rentalId = .ok st') :
    ∃ app, st.rentals.find? (fun a => a.id == rentalId) = some app ∧
      st' = { items := Worker.applyOps st.items
                (if app.status = .PENDING ∨ app.status = .RENTED
                 then app.items.map (fun e => (e.itemId, e.quantity)) else [])
              rentals := st.rentals.filter (fun a => !(a.id == rentalId)) } := by
  unfold Worker.adminDeleteHandler at h
  cases hfind : st.rentals.find? (fun a => a.id == rentalId) with
  | none => rw [hfind] at h; cases h
  | some app =>
    rw [hfind] at h
    simp only at h
    injection h with h
    exact ⟨app, rfl, h.symm⟩

lemma adminDeleteHandler_preserves_Inv {st : DBState} {rentalId : String}
    {st' : DBState} (hInv : Inv st)
    (h : Worker.adminDeleteHandler st rentalId = .ok st') : Inv st' := by
  obtain ⟨app, hfind, hst'⟩ := adminDeleteHandler_ok_cases h
  have happid : app.id = rentalId := by simpa using List.find?_some hfind
  have hmem := List.mem_of_find?_eq_some hfind
  subst hst'
  by_cases hres : app.status = .PENDING ∨ app.status = .RENTED
  · rw [if_pos hres, ← happid]
    exact release_app_preserves_Inv hInv hmem (by
      rcases hres with hs | hs <;> rw [hs] <;> rfl)
  · rw [if_neg hres]
    obtain ⟨hiw, hrnd, hled, hbounds, hcons⟩ := hInv
    have hnores : reservedStatus app.status = false := by
      cases hs : app.status
      · exact absurd (Or.inl hs) hres
      · exact absurd (Or.inr hs) hres
      · rfl
    have hcontrib : ∀ itemId, appContribution app itemId = 0 := by
      intro itemId
      unfold appContribution
      rw [hnores]
      simp
    refine ⟨?_, ?_, ?_, ?_, ?_⟩
    · show itemsWF (Worker.applyOps st.items [])
      exact hiw
    · show (List.map (fun a => a.id)
        (st.rentals.filter (fun a => !(a.id == rentalId)))).Nodup
      exact ((List.filter_sublist st.rentals).map (fun a => a.id)).nodup hrnd
    · intro a ha
      exact hled a (List.mem_of_mem_filter ha)
    · intro it hit
      exact hbounds it hit
    · intro it hit
      show it.currentStock
          + reservedQty (st.rentals.filter (fun a => !(a.id == rentalId))) it.id
        = it.initialStock
      rw [← happid, reservedQty_filter_out hrnd hmem it.id, hcontrib]
      have hc := hcons it hit
      omega

/-! ## Shape of a successful reconciliation, without invariant hypotheses -/

lemma manageRentalUpdate_shape {st : DBState} {orig core : RentalApplication}
    {newItems : List SelectedItemEntry} {dep : Int} {fa : RentalApplication}
    {ops : List (String × Int)} {st' : DBState}
    (h : Worker.manageRentalUpdate st orig core newItems dep = .ok (fa, ops, st')) :
    fa = { core with
           id := orig.id
           items := newItems
           totalItemCost := (calculateRentalCosts newItems st.items dep).1
           deposit := dep
           totalAmount := (calculateRentalCosts newItems st.items dep).1 + dep }
    ∧ st'.items = Worker.applyOps st.items ops
    ∧ st'.rentals = Worker.replaceApp st.rentals fa
    ∧ ∃ m', Worker.reconcileLoop st.items orig.items newItems
        (reservedStatus orig.status) (reservedStatus core.status)
        (Worker.involvedItemIds orig.items newItems)
        (st.items.map (fun it => (it.id, it.currentStock))) = .ok (ops, m') := by
  unfold Worker.manageRentalUpdate at h
  simp only at h
  cases hrec : Worker.reconcileLoop st.items orig.items newItems
      (reservedStatus orig.status) (reservedStatus core.status)
      (Worker.involvedItemIds orig.items newItems)
      (st.items.map (fun it => (it.id, it.currentStock))) with
  | error e => rw [hrec] at h; simp at h
  | ok pr =>
    obtain ⟨ops0, m0⟩ := pr
    rw [hrec] at h
    simp only [Except.ok.injEq, Prod.mk.injEq] at h
    obtain ⟨hfa, hops, hst'⟩ := h
    subst hops
    refine ⟨hfa.symm, ?_, ?_, m0, rfl⟩
    · rw [← hst']
    · rw [← hst']
      show Worker.replaceApp st.rentals _ = Worker.replaceApp st.rentals fa
      rw [hfa]

lemma manageRentalUpdateV1_shape {st : DBState} {orig core : RentalApplication}
    {newItems : List SelectedItemEntry} {dep : Int} {fa : RentalApplication}
    {ops : List (String × Int)} {st' : DBState}
    (h : Worker.manageRentalUpdateV1 st orig core newItems dep = .ok (fa, ops, st')) :
    fa = { core with
           id := orig.id
           items := newItems
           totalItemCost := (calculateRentalCosts newItems st.items dep).1
           deposit := dep
           totalAmount := (calculateRentalCosts newItems st.items dep).1 + dep }
    ∧ st'.items = Worker.applyOps st.items ops
    ∧ st'.rentals = Worker.replaceApp st.rentals fa
    ∧ ∃ m', Worker.reconcileLoopV1 st.items orig.items newItems
        (reservedStatus orig.status) (reservedStatus core.status)
        (Worker.involvedItemIds orig.items newItems)
        (st.items.map (fun it => (it.id, it.currentStock))) = .ok (ops, m') := by
  unfold Worker.manageRentalUpdateV1 at h
  simp only at h
  cases hrec : Worker.reconcileLoopV1 st.items orig.items newItems
      (reservedStatus orig.status) (reservedStatus core.status)
      (Worker.involvedItemIds orig.items newItems)
      (st.items.map (fun it => (it.id, it.currentStock))) with
  | error e => rw [hrec] at h; simp at h
  | ok pr =>
    obtain ⟨ops0, m0⟩ := pr
    rw [hrec] at h
    simp only [Except.ok.injEq, Prod.mk.injEq] at h
    obtain ⟨hfa, hops, hst'⟩ := h
    subst hops
    refine ⟨hfa.symm, ?_, ?_, m0, rfl⟩
    · rw [← hst']
    · rw [← hst']
      show Worker.replaceApp st.rentals _ = Worker.replaceApp st.rentals fa
      rw [hfa]

/-! ## Handler inversions for the update paths -/

lemma userUpdateHandler_ok_inv {st : DBState} {rentalId : String}
    {body : Worker.UserUpdateBody} {dep : Int} {fa : RentalApplication}
    {ops : List (String × Int)} {st' : DBState}
    (h : Worker.userUpdateHandler st rentalId body dep = .ok (fa, ops, st')) :
    ∃ newItemsData rentalDate returnDate orig,
      body.items = some newItemsData ∧ body.rentalDate = some rentalDate
      ∧ body.returnDate = some returnDate
      ∧ st.rentals.find? (fun a => a.id == rentalId) = some orig
      ∧ orig.status = .PENDING
      ∧ Worker.manageRentalUpdate st orig
          { orig with rentalDate := rentalDate, returnDate := returnDate }
          newItemsData dep = .ok (fa, ops, st') := by
  unfold Worker.userUpdateHandler at h
  cases hbi : body.items with
  | none => rw [hbi] at h; cases h
  | some newItemsData =>
  cases hbr : body.rentalDate with
  | none => rw [hbi, hbr] at h; cases h
  | some rentalDate =>
  cases hbt : body.returnDate with
  | none => rw [hbi, hbr, hbt] at h; cases h
  | some returnDate =>
  rw [hbi, hbr, hbt] at h
  simp only at h
  by_cases hcond : (newItemsData.isEmpty || strIsEmpty rentalDate
      || strIsEmpty returnDate || strLtB returnDate rentalDate) = true
  · rw [if_pos hcond] at h; cases h
  · rw [if_neg hcond] at h
    cases hfind : st.rentals.find? (fun a => a.id == rentalId) with
    | none => rw [hfind] at h; cases h
    | some orig =>
      rw [hfind] at h
      simp only at h
      by_cases hs : orig.status = .PENDING
      · rw [if_neg (by simpa using hs)] at h
        exact ⟨newItemsData, rentalDate, returnDate, orig, rfl, rfl, rfl, rfl, hs, h⟩
      · rw [if_pos hs] at h; cases h

lemma userUpdateHandlerV1_ok_inv {st : DBState} {rentalId : String}
    {body : Worker.UserUpdateBody} {dep : Int} {fa : RentalApplication}
    {ops : List (String × Int)} {st' : DBState}
    (h : Worker.userUpdateHandlerV1 st rentalId body dep = .ok (fa, ops, st')) :
    ∃ newItemsData rentalDate returnDate orig,
      body.items = some newItemsData ∧ body.rentalDate = some rentalDate
      ∧ body.returnDate = some returnDate
      ∧ st.rentals.find? (fun a => a.id == rentalId) = some orig
      ∧ orig.status = .PENDING
      ∧ Worker.manageRentalUpdateV1 st orig
          { orig with rentalDate := rentalDate, returnDate := returnDate }
          newItemsData dep = .ok (fa, ops, st') := by
  unfold Worker.userUpdateHandlerV1 at h
  cases hbi : body.items with
  | none => rw [hbi] at h; cases h
  | some newItemsData =>
  cases hbr : body.rentalDate with
  | none => rw [hbi, hbr] at h; cases h
  | some rentalDate =>
  cases hbt : body.returnDate with
  | none => rw [hbi, hbr, hbt] at h; cases h
  | some returnDate =>
  rw [hbi, hbr, hbt] at h
  simp only at h
  by_cases hcond : (newItemsData.isEmpty || strIsEmpty rentalDate
      || strIsEmpty returnDate || strLtB returnDate rentalDate) = true
  · rw [if_pos hcond] at h; cases h
  · rw [if_neg hcond] at h
    cases hfind : st.rentals.find? (fun a => a.id == rentalId) with
    | none => rw [hfind] at h; cases h
    | some orig =>
      rw [hfind] at h
      simp only at h
      by_cases hs : orig.status = .PENDING
      · rw [if_neg (by simpa using hs)] at h
        exact ⟨newItemsData, rentalDate, returnDate, orig, rfl, rfl, rfl, rfl, hs, h⟩
      · rw [if_pos hs] at h; cases h

lemma adminUpdateHandler_ok_inv {st : DBState} {rentalId : String}
    {body : Worker.AdminUpdateBody} {dep : Int} {fa : RentalApplication}
    {ops : List (String × Int)} {st' : DBState}
    (h : Worker.adminUpdateHandler st rentalId body dep = .ok (fa, ops, st')) :
    ∃ orig, st.rentals.find? (fun a => a.id == rentalId) = some orig
      ∧ Worker.manageRentalUpdate st orig (Worker.mergeAdminData orig body)
          orig.items dep = .ok (fa, ops, st') := by
  unfold Worker.adminUpdateHandler at h
  cases hfind : st.rentals.find? (fun a => a.id == rentalId) with
  | none => rw [hfind] at h; cases h
  | some orig =>
    rw [hfind] at h
    simp only at h
    by_cases hret : (Worker.mergeAdminData orig body).status = .RETURNED
        ∧ Worker.missingReturnDate (Worker.mergeAdminData orig body).actualReturnDate
          = true
    · rw [if_pos hret] at h; cases h
    · rw [if_neg hret] at h
      exact ⟨orig, rfl, h⟩

lemma adminUpdateHandlerV1_ok_inv {st : DBState} {rentalId : String}
    {body : Worker.AdminUpdateBody} {dep : Int} {fa : RentalApplication}
    {ops : List (String × Int)} {st' : DBState}
    (h : Worker.adminUpdateHandlerV1 st rentalId body dep = .ok (fa, ops, st')) :
    ∃ orig, st.rentals.find? (fun a => a.id == rentalId) = some orig
      ∧ Worker.manageRentalUpdateV1 st orig (Worker.mergeAdminData orig body)
          (body.items.getD orig.items) dep = .ok (fa, ops, st') := by
  unfold Worker.adminUpdateHandlerV1 at h
  cases hfind : st.rentals.find? (fun a => a.id == rentalId) with
  | none => rw [hfind] at h; cases h
  | some orig =>
    rw [hfind] at h
    simp only at h
    by_cases hret : (Worker.mergeAdminData orig body).status = .RETURNED
        ∧ Worker.missingReturnDate (Worker.mergeAdminData orig body).actualReturnDate
          = true
    · rw [if_pos hret] at h; cases h
    · rw [if_neg hret] at h
      exact ⟨orig, rfl, h⟩

/-! ## The localStorage-backed dataService variant -/

lemma findItem_map_stock {items : List Item} {f : Item → Int} {itemId : String} :
    findItem (items.map (fun it => { it with currentStock := f it })) itemId
      = (findItem items itemId).map (fun it => { it with currentStock := f it }) := by
  induction items with
  | nil => rfl
  | cons a l ih =>
    by_cases ha : a.id = itemId
    · unfold findItem
      rw [List.map_cons, List.find?_cons_of_pos _ (by simpa using ha),
        List.find?_cons_of_pos _ (by simpa using ha)]
      rfl
    · unfold findItem
      rw [List.map_cons, List.find?_cons_of_neg _ (by simpa using ha),
        List.find?_cons_of_neg _ (by simpa using ha)]
      exact ih

lemma validateStock_ok {allItems : List Item} :
    ∀ {entries : List SelectedItemEntry},
      DataService.validateStock allItems entries = .ok () ↔
      ∀ e ∈ entries, ∃ it, findItem allItems e.itemId = some it
        ∧ e.quantity ≤ it.currentStock := by
  intro entries
  induction entries with
  | nil => simp [DataService.validateStock]
  | cons e rest ih =>
    rw [DataService.validateStock]
    cases hf : findItem allItems e.itemId with
    | none =>
      simp only
      constructor
      · intro h; cases h
      · intro h
        obtain ⟨it, hit, _⟩ := h e (List.mem_cons_self _ _)
        rw [hf] at hit
        cases hit
    | some itemDetail =>
      simp only
      by_cases hlt : itemDetail.currentStock < e.quantity
      · rw [if_pos hlt]
        constructor
        · intro h; cases h
        · intro h
          obtain ⟨it, hit, hle⟩ := h e (List.mem_cons_self _ _)
          rw [hf] at hit
          cases hit
          omega
      · rw [if_neg hlt, ih]
        constructor
        · intro h x hx
          rcases List.mem_cons.mp hx with rfl | hx'
          · exact ⟨itemDetail, hf, by omega⟩
          · exact h x hx'
        · intro h x hx
          exact h x (List.mem_cons_of_mem _ hx)

lemma validateStock_insufficient {allItems : List Item} :
    ∀ {entries : List SelectedItemEntry},
      (∃ e ∈ entries, ∀ it, findItem allItems e.itemId = some it →
          it.currentStock < e.quantity) →
      DataService.validateStock allItems entries = .error .insufficientStock := by
  intro entries
  induction entries with
  | nil => rintro ⟨e, he, _⟩; cases he
  | cons e rest ih =>
    rintro ⟨w, hw, hcond⟩
    rw [DataService.validateStock]
    cases hf0 : findItem allItems e.itemId with
    | none => rfl
    | some it0 =>
      simp only
      by_cases hlt : it0.currentStock < e.quantity
      · rw [if_pos hlt]
      · rw [if_neg hlt]
        rcases List.mem_cons.mp hw with rfl | hw'
        · exact absurd (hcond it0 hf0) hlt
        · exact ih ⟨w, hw', hcond⟩

/-- Under a passing validation and a well-formed entry list, the decrease
loop of `addRentalApplication` never throws and subtracts each entry's
quantity exactly once. -/
lemma adjustAllDecrease_ok {items : List Item} (hiw : itemsWF items)
    {entries : List SelectedItemEntry}
    (hnd : (entries.map (fun e => e.itemId)).Nodup)
    (hval : ∀ e ∈ entries, ∃ it, findItem items e.itemId = some it
      ∧ e.quantity ≤ it.currentStock) :
    DataService.adjustAllDecrease entries items =
      (items.map (fun it =>
        { it with currentStock := it.currentStock - qtyOf entries it.id }), none) := by
  induction entries generalizing items with
  | nil =>
    show (items, none) = _
    have : items.map (fun it =>
        { it with currentStock := it.currentStock - qtyOf [] it.id }) = items := by
      conv_rhs => rw [← List.map_id items]
      apply List.map_congr_left
      intro it _
      have hq : qtyOf [] it.id = 0 := rfl
      rw [hq]
      cases it
      simp
    rw [this]
  | cons e rest ih =>
    rcases List.nodup_cons.mp hnd with ⟨hnot, hnd'⟩
    obtain ⟨ite, hfinde, hlee⟩ := hval e (List.mem_cons_self _ _)
    show (match DataService.adjustStockForItem items e.itemId e.quantity .decrease with
      | .error msg => (items, some msg)
      | .ok inv' => DataService.adjustAllDecrease rest inv') = _
    rw [DataService.adjustStockForItem, hfinde]
    simp only
    rw [if_neg (by omega)]
    simp only
    have hinv1 : items.map (fun i => if i.id == e.itemId then
        { ite with currentStock := ite.currentStock - e.quantity } else i)
      = items.map (fun i => if i.id == e.itemId then
        { i with currentStock := i.currentStock - e.quantity } else i) := by
      apply List.map_congr_left
      intro i hi
      by_cases hid : i.id = e.itemId
      · rw [if_pos (by simpa using hid), if_pos (by simpa using hid)]
        have : findItem items e.itemId = some i := by
          rw [← hid]
          exact findItem_self hiw hi
        rw [this] at hfinde
        injection hfinde with he
        rw [he]
      · rw [if_neg (by simpa using hid), if_neg (by simpa using hid)]
    rw [hinv1]
    have hmapform : items.map (fun i => if i.id == e.itemId then
        { i with currentStock := i.currentStock - e.quantity } else i)
      = items.map (fun i =>
        { i with currentStock := i.currentStock
            - (if i.id == e.itemId then e.quantity else 0) }) := by
      apply List.map_congr_left
      intro i _
      by_cases hid : i.id = e.itemId
      · rw [if_pos (by simpa using hid), if_pos (by simpa using hid)]
      · rw [if_neg (by simpa using hid), if_neg (by simpa using hid)]
        cases i
        simp
    rw [hmapform]
    have hiw1 : itemsWF (items.map (fun i =>
        { i with currentStock := i.currentStock
            - (if i.id == e.itemId then e.quantity else 0) })) := by
      unfold itemsWF
      rw [List.map_map]
      simpa [Function.comp] using hiw
    have hval1 : ∀ e' ∈ rest, ∃ it,
        findItem (items.map (fun i =>
          { i with currentStock := i.currentStock
              - (if i.id == e.itemId then e.quantity else 0) })) e'.itemId = some it
        ∧ e'.quantity ≤ it.currentStock := by
      intro e' he'
      obtain ⟨it', hfind', hle'⟩ := hval e' (List.mem_cons_of_mem _ he')
      refine ⟨{ it' with currentStock := it'.currentStock
          - (if it'.id == e.itemId then e.quantity else 0) }, ?_, ?_⟩
      · rw [findItem_map_stock, hfind']
        rfl
      · have hne : ¬ it'.id = e.itemId := by
          intro hc
          apply hnot
          show e.itemId ∈ _
          rw [← hc, findItem_id hfind']
          simpa using List.mem_map_of_mem (fun x => x.itemId) he'
        rw [if_neg (by simpa using hne)]
        simpa using hle'
    rw [ih hiw1 hnd' hval1, List.map_map]
    have : ∀ i ∈ items,
        ((fun it => { it with currentStock := it.currentStock - qtyOf rest it.id })
          ∘ (fun i => { i with currentStock := i.currentStock
              - (if i.id == e.itemId then e.quantity else 0) })) i
        = { i with currentStock := i.currentStock - qtyOf (e :: rest) i.id } := by
      intro i _
      simp only [Function.comp]
      by_cases hid : i.id = e.itemId
      · have hql : qtyOf (e :: rest) i.id = e.quantity := by
          unfold qtyOf
          rw [List.find?_cons_of_pos _ (by simpa using hid.symm)]
        have hqr : qtyOf rest i.id = 0 := by
          apply qtyOf_eq_zero
          intro hc
          apply hnot
          show e.itemId ∈ _
          rw [← hid]
          exact hc
        rw [if_pos (by simpa using hid), hql, hqr]
        cases i
        simp
      · have hql : qtyOf (e :: rest) i.id = qtyOf rest i.id := by
          unfold qtyOf
          rw [List.find?_cons_of_neg _
            (by simpa using fun hc : e.itemId = i.id => hid hc.symm)]
        rw [if_neg (by simpa using hid), hql]
        cases i
        simp
    rw [List.map_congr_left this]

lemma addRentalApplication_ok {st : DBState} {req : Worker.CreateReq}
    {newId applicationDate : String} {dep : Int}
    (hiw : itemsWF st.items)
    (hnd : (req.items.map (fun e => e.itemId)).Nodup)
    (hval : ∀ e ∈ req.items, ∃ it, findItem st.items e.itemId = some it
      ∧ e.quantity ≤ it.currentStock) :
    DataService.addRentalApplication st req newId applicationDate dep =
      ({ items := st.items.map (fun it =>
            { it with currentStock := it.currentStock - qtyOf req.items it.id })
         rentals := st.rentals ++ [Worker.mkNewApplication req newId applicationDate
            (calculateRentalCosts req.items st.items dep).1 dep] },
       .ok (Worker.mkNewApplication req newId applicationDate
         (calculateRentalCosts req.items st.items dep).1 dep)) := by
  unfold DataService.addRentalApplication
  rw [validateStock_ok.mpr hval]
  simp only
  rw [adjustAllDecrease_ok hiw hnd hval]

lemma addRentalApplication_fail {st : DBState} {req : Worker.CreateReq}
    {newId applicationDate : String} {dep : Int}
    (hfail : ∃ e ∈ req.items, ∀ it, findItem st.items e.itemId = some it →
        it.currentStock < e.quantity) :
    DataService.addRentalApplication st req newId applicationDate dep =
      (st, .error .insufficientStock) := by
  unfold DataService.addRentalApplication
  rw [validateStock_insufficient hfail]

/-! ## Remaining support lemmas -/

lemma calculateRentalCosts_foldl (allDbItems : List Item) :
    ∀ (items : List SelectedItemEntry) (init : Int),
      (items.foldl (fun acc selected =>
        match findItem allDbItems selected.itemId with
        | some itemDetails => acc + itemDetails.price * selected.quantity
        | none => acc) init)
      = init + (items.map (fun s =>
          match findItem allDbItems s.itemId with
          | some it => it.price * s.quantity
          | none => 0)).sum := by
  intro items
  induction items with
  | nil => intro init; simp
  | cons s rest ih =>
    intro init
    rw [List.foldl_cons, List.map_cons, List.sum_cons]
    cases hf : findItem allDbItems s.itemId with
    | none =>
      simp only [hf]
      rw [ih init]
      ring
    | some it =>
      simp only [hf]
      rw [ih (init + it.price * s.quantity)]
      ring

lemma updateItemHandler_bounds {st : DBState} {itemId : String}
    {newItem : Item} {st1 : DBState} (hbounds : stockBounds st)
    (h : Worker.updateItemHandler st itemId newItem = .ok st1) :
    stockBounds st1 := by
  unfold Worker.updateItemHandler at h
  by_cases h1 : newItem.initialStock < newItem.currentStock
  · rw [if_pos h1] at h; cases h
  · rw [if_neg h1] at h
    by_cases h2 : newItem.currentStock < 0 ∨ newItem.initialStock < 0
        ∨ newItem.price < 0
    · rw [if_pos h2] at h; cases h
    · rw [if_neg h2] at h
      cases hf : findItem st.items itemId with
      | none => rw [hf] at h; cases h
      | some it0 =>
        rw [hf] at h
        injection h with h
        subst h
        intro it' hit'
        rcases List.mem_map.mp hit' with ⟨it, hm, rfl⟩
        push_neg at h2
        by_cases hid : it.id = itemId
        · rw [if_pos (by simpa using hid)]
          constructor
          · show (0 : Int) ≤ newItem.currentStock
            exact h2.1
          · show newItem.currentStock ≤ newItem.initialStock
            omega
        · rw [if_neg (by simpa using hid)]
          exact hbounds it hm

lemma find_append_fresh {rentals : List RentalApplication}
    {b : RentalApplication} {nid : String}
    (hfresh : ∀ a ∈ rentals, ¬ a.id = nid) (hb : b.id = nid) :
    (rentals ++ [b]).find? (fun a => a.id == nid) = some b := by
  induction rentals with
  | nil => simp [List.find?_cons, hb]
  | cons a l ih =>
    rw [List.cons_append,
      List.find?_cons_of_neg _ (by simpa using hfresh a (List.mem_cons_self _ _))]
    exact ih (fun x hx => hfresh x (List.mem_cons_of_mem _ hx))

/-! ## The claims -/

/-- **C1** — Conservation invariant: for every item, after every core
operation — create (`POST /api/rentals/apply`), user edit
(`PUT /api/rentals/:id`), user cancel (`POST /api/rentals/:id/cancel`),
admin edit (`PUT /api/admin/rentals/:id`), admin delete
(`DELETE /api/admin/rentals/:id`) — the item's `currentStock` plus the sum
of quantities over all PENDING or RENTED applications referencing that item
equals the item's `initialStock`.  Stated for a store satisfying the data
model's invariants, with well-formed request entry lists and a fresh id for
the created ledger row. -/
theorem C1_conservation_after_core_ops (st : DBState) (dep : Int) (hInv : Inv st) :
    (∀ (req : Worker.CreateReq) (newId appDate : String) (st1 : DBState)
        (app : RentalApplication), entriesWF req.items →
      newId ∉ st.rentals.map (fun a => a.id) →
      Worker.createHandler st req newId appDate dep = .ok (st1, app) →
      conservation st1)
    ∧ (∀ (rentalId : String) (body : Worker.UserUpdateBody) (fa : RentalApplication)
        (ops : List (String × Int)) (st1 : DBState),
      entriesWF (body.items.getD []) →
      Worker.userUpdateHandler st rentalId body dep = .ok (fa, ops, st1) →
      conservation st1)
    ∧ (∀ (rentalId : String) (st1 : DBState),
      Worker.cancelHandler st rentalId = .ok st1 → conservation st1)
    ∧ (∀ (rentalId : String) (body : Worker.AdminUpdateBody) (fa : RentalApplication)
        (ops : List (String × Int)) (st1 : DBState),
      Worker.adminUpdateHandler st rentalId body dep = .ok (fa, ops, st1) →
      conservation st1)
    ∧ (∀ (rentalId : String) (st1 : DBState),
      Worker.adminDeleteHandler st rentalId = .ok st1 → conservation st1) := by
  refine ⟨?_, ?_, ?_, ?_, ?_⟩
  · intro req newId appDate st1 app hreq hfresh h
    exact (createHandler_preserves_Inv hInv hreq hfresh h).2.2.2.2
  · intro rentalId body fa ops st1 hreq h
    obtain ⟨newItemsData, rentalDate, returnDate, orig, hbi, _, _, hfind, _, hm⟩ :=
      userUpdateHandler_ok_inv h
    rw [hbi] at hreq
    exact (manageRentalUpdate_preserves_Inv hInv
      (List.mem_of_find?_eq_some hfind) hreq hm).2.2.2.2
  · intro rentalId st1 h
    exact (cancelHandler_preserves_Inv hInv h).2.2.2.2
  · intro rentalId body fa ops st1 h
    obtain ⟨orig, hfind, hm⟩ := adminUpdateHandler_ok_inv h
    have hmem := List.mem_of_find?_eq_some hfind
    exact (manageRentalUpdate_preserves_Inv hInv hmem
      (hInv.2.2.1 orig hmem) hm).2.2.2.2
  · intro rentalId st1 h
    exact (adminDeleteHandler_preserves_Inv hInv h).2.2.2.2

/-- Witness for C1: the conservation law holds after each of the five core
operations run on the concrete store `stHeld4` (item "A" at 6/10, one
PENDING application holding `{A:4}`). -/
theorem C1_conservation_after_core_ops_witness :
    conservation (createdState
      (Worker.createHandler stHeld4 (mkReq [⟨"A", 2⟩]) "r1" "2026-02-03" 10))
    ∧ conservation (updatedState
      (Worker.userUpdateHandler stHeld4 "r0" (mkUserBody [⟨"A", 1⟩]) 10))
    ∧ conservation (plainState (Worker.cancelHandler stHeld4 "r0"))
    ∧ conservation (updatedState
      (Worker.adminUpdateHandler stHeld4 "r0" adminRentBody 10))
    ∧ conservation (plainState (Worker.adminDeleteHandler stHeld4 "r0")) := by
  obtain ⟨h1, h2, h3, h4, h5⟩ :=
    C1_conservation_after_core_ops stHeld4 10 (by decide)
  refine ⟨?_, ?_, ?_, ?_, ?_⟩
  · exact h1 (mkReq [⟨"A", 2⟩]) "r1" "2026-02-03"
      (createdState (Worker.createHandler stHeld4 (mkReq [⟨"A", 2⟩]) "r1" "2026-02-03" 10))
      (createdApp (Worker.createHandler stHeld4 (mkReq [⟨"A", 2⟩]) "r1" "2026-02-03" 10))
      (by decide) (by decide) (by rfl)
  · exact h2 "r0" (mkUserBody [⟨"A", 1⟩])
      (updatedApp (Worker.userUpdateHandler stHeld4 "r0" (mkUserBody [⟨"A", 1⟩]) 10))
      (updatedOps (Worker.userUpdateHandler stHeld4 "r0" (mkUserBody [⟨"A", 1⟩]) 10))
      (updatedState (Worker.userUpdateHandler stHeld4 "r0" (mkUserBody [⟨"A", 1⟩]) 10))
      (by decide) (by rfl)
  · exact h3 "r0" (plainState (Worker.cancelHandler stHeld4 "r0")) (by rfl)
  · exact h4 "r0" adminRentBody
      (updatedApp (Worker.adminUpdateHandler stHeld4 "r0" adminRentBody 10))
      (updatedOps (Worker.adminUpdateHandler stHeld4 "r0" adminRentBody 10))
      (updatedState (Worker.adminUpdateHandler stHeld4 "r0" adminRentBody 10))
      (by rfl)
  · exact h5 "r0" (plainState (Worker.adminDeleteHandler stHeld4 "r0")) (by rfl)

/-- **C2** — Net-delta correctness: when both the old and the new status are
reserved (PENDING or RENTED), a successful reconciliation moves each item's
`currentStock` by exactly `oldQty - newQty` (0 for an item absent from a
list), and an item whose computed delta is 0 gets no inventory write. -/
theorem C2_net_delta (st : DBState) (orig core : RentalApplication)
    (newItems : List SelectedItemEntry) (dep : Int) (fa : RentalApplication)
    (ops : List (String × Int)) (st' : DBState)
    (hInv : Inv st) (hmem : orig ∈ st.rentals) (hnew : entriesWF newItems)
    (hores : reservedStatus orig.status = true)
    (hnres : reservedStatus core.status = true)
    (h : Worker.manageRentalUpdate st orig core newItems dep = .ok (fa, ops, st')) :
    st'.items = st.items.map (fun it =>
      { it with currentStock := (it.currentStock
          + (qtyOf orig.items it.id - qtyOf newItems it.id)) })
    ∧ (∀ itemId d, (itemId, d) ∈ ops →
        d = qtyOf orig.items itemId - qtyOf newItems itemId ∧ d ≠ 0) := by
  obtain ⟨hfa, hops, hitems, hrent, hbnd⟩ := manageRentalUpdate_ok hInv hmem hnew h
  have horig := hInv.2.2.1 orig hmem
  have hscform : ∀ itemId, scOf orig.items newItems (reservedStatus orig.status)
      (reservedStatus core.status) itemId
      = qtyOf orig.items itemId - qtyOf newItems itemId := by
    intro itemId
    rw [scOf_eq horig.2 hnew.2 itemId, hores, hnres]
    simp
  constructor
  · rw [hitems]
    apply List.map_congr_left
    intro it _
    rw [hscform it.id]
  · intro itemId d hmemops
    rw [hops, expectedOps] at hmemops
    rcases List.mem_filterMap.mp hmemops with ⟨i, _, hg⟩
    cases hfi : findItem st.items i with
    | none => rw [hfi] at hg; cases hg
    | some itd =>
      rw [hfi] at hg
      by_cases hsc0 : scOf orig.items newItems (reservedStatus orig.status)
          (reservedStatus core.status) i = 0
      · rw [if_neg (by simpa using hsc0)] at hg; cases hg
      · rw [if_pos hsc0] at hg
        injection hg with hg
        injection hg with hg1 hg2
        subst hg1
        rw [← hg2, hscform i]
        exact ⟨rfl, by rw [← hscform i]; exact hsc0⟩

/-- Witness for C2: reducing the PENDING application's quantity for item "A"
from 5 to 3 raises `currentStock` from 5 to exactly 7 (a +2 move), and the
single issued write carries delta 2. -/
theorem C2_net_delta_witness :
    (updatedState (Worker.manageRentalUpdate stHeld5 (mkApp [⟨"A", 5⟩] 25)
        (mkApp [⟨"A", 5⟩] 25) [⟨"A", 3⟩] 10)).items
      = stHeld5.items.map (fun it =>
          { it with currentStock := (it.currentStock
              + (qtyOf (mkApp [⟨"A", 5⟩] 25).items it.id - qtyOf [⟨"A", 3⟩] it.id)) })
    ∧ curStockOf (updatedState (Worker.manageRentalUpdate stHeld5 (mkApp [⟨"A", 5⟩] 25)
        (mkApp [⟨"A", 5⟩] 25) [⟨"A", 3⟩] 10)) "A" = 7
    ∧ curStockOf stHeld5 "A" = 5 := by
  refine ⟨?_, by decide, by decide⟩
  exact (C2_net_delta stHeld5 (mkApp [⟨"A", 5⟩] 25) (mkApp [⟨"A", 5⟩] 25)
    [⟨"A", 3⟩] 10
    (updatedApp (Worker.manageRentalUpdate stHeld5 (mkApp [⟨"A", 5⟩] 25)
        (mkApp [⟨"A", 5⟩] 25) [⟨"A", 3⟩] 10))
    (updatedOps (Worker.manageRentalUpdate stHeld5 (mkApp [⟨"A", 5⟩] 25)
        (mkApp [⟨"A", 5⟩] 25) [⟨"A", 3⟩] 10))
    (updatedState (Worker.manageRentalUpdate stHeld5 (mkApp [⟨"A", 5⟩] 25)
        (mkApp [⟨"A", 5⟩] 25) [⟨"A", 3⟩] 10))
    (by decide) (by decide) (by decide) (by decide) (by decide) (by rfl)).1

/-- **C3** — Stock-bounds invariant: for every item, after every core
operation (create, user edit, user cancel, admin edit, admin delete, and the
admin catalog-item update), `0 ≤ currentStock ≤ initialStock` holds (given a
store satisfying the invariant and well-formed request data). -/
theorem C3_stock_bounds_after_ops (st : DBState) (dep : Int) (hInv : Inv st) :
    (∀ (req : Worker.CreateReq) (newId appDate : String) (st1 : DBState)
        (app : RentalApplication), entriesWF req.items →
      newId ∉ st.rentals.map (fun a => a.id) →
      Worker.createHandler st req newId appDate dep = .ok (st1, app) →
      stockBounds st1)
    ∧ (∀ (rentalId : String) (body : Worker.UserUpdateBody) (fa : RentalApplication)
        (ops : List (String × Int)) (st1 : DBState),
      entriesWF (body.items.getD []) →
      Worker.userUpdateHandler st rentalId body dep = .ok (fa, ops, st1) →
      stockBounds st1)
    ∧ (∀ (rentalId : String) (st1 : DBState),
      Worker.cancelHandler st rentalId = .ok st1 → stockBounds st1)
    ∧ (∀ (rentalId : String) (body : Worker.AdminUpdateBody) (fa : RentalApplication)
        (ops : List (String × Int)) (st1 : DBState),
      Worker.adminUpdateHandler st rentalId body dep = .ok (fa, ops, st1) →
      stockBounds st1)
    ∧ (∀ (rentalId : String) (st1 : DBState),
      Worker.adminDeleteHandler st rentalId = .ok st1 → stockBounds st1)
    ∧ (∀ (itemId : String) (newItem : Item) (st1 : DBState),
      Worker.updateItemHandler st itemId newItem = .ok st1 → stockBounds st1) := by
  refine ⟨?_, ?_, ?_, ?_, ?_, ?_⟩
  · intro req newId appDate st1 app hreq hfresh h
    exact (createHandler_preserves_Inv hInv hreq hfresh h).2.2.2.1
  · intro rentalId body fa ops st1 hreq h
    obtain ⟨newItemsData, rentalDate, returnDate, orig, hbi, _, _, hfind, _, hm⟩ :=
      userUpdateHandler_ok_inv h
    rw [hbi] at hreq
    exact (manageRentalUpdate_preserves_Inv hInv
      (List.mem_of_find?_eq_some hfind) hreq hm).2.2.2.1
  · intro rentalId st1 h
    exact (cancelHandler_preserves_Inv hInv h).2.2.2.1
  · intro rentalId body fa ops st1 h
    obtain ⟨orig, hfind, hm⟩ := adminUpdateHandler_ok_inv h
    have hmem := List.mem_of_find?_eq_some hfind
    exact (manageRentalUpdate_preserves_Inv hInv hmem
      (hInv.2.2.1 orig hmem) hm).2.2.2.1
  · intro rentalId st1 h
    exact (adminDeleteHandler_preserves_Inv hInv h).2.2.2.1
  · intro itemId newItem st1 h
    exact updateItemHandler_bounds hInv.2.2.2.1 h

/-- Witness for C3: the stock bounds hold after each of the six operations
run on the concrete store `stHeld4`. -/
theorem C3_stock_bounds_after_ops_witness :
    stockBounds (createdState
      (Worker.createHandler stHeld4 (mkReq [⟨"A", 2⟩]) "r1" "2026-02-03" 10))
    ∧ stockBounds (updatedState
      (Worker.userUpdateHandler stHeld4 "r0" (mkUserBody [⟨"A", 1⟩]) 10))
    ∧ stockBounds (plainState (Worker.cancelHandler stHeld4 "r0"))
    ∧ stockBounds (updatedState
      (Worker.adminUpdateHandler stHeld4 "r0" adminRentBody 10))
    ∧ stockBounds (plainState (Worker.adminDeleteHandler stHeld4 "r0"))
    ∧ stockBounds (plainState (Worker.updateItemHandler stHeld4 "A" (itemA 9))) := by
  obtain ⟨h1, h2, h3, h4, h5, h6⟩ :=
    C3_stock_bounds_after_ops stHeld4 10 (by decide)
  refine ⟨?_, ?_, ?_, ?_, ?_, ?_⟩
  · exact h1 (mkReq [⟨"A", 2⟩]) "r1" "2026-02-03"
      (createdState (Worker.createHandler stHeld4 (mkReq [⟨"A", 2⟩]) "r1" "2026-02-03" 10))
      (createdApp (Worker.createHandler stHeld4 (mkReq [⟨"A", 2⟩]) "r1" "2026-02-03" 10))
      (by decide) (by decide) (by rfl)
  · exact h2 "r0" (mkUserBody [⟨"A", 1⟩])
      (updatedApp (Worker.userUpdateHandler stHeld4 "r0" (mkUserBody [⟨"A", 1⟩]) 10))
      (updatedOps (Worker.userUpdateHandler stHeld4 "r0" (mkUserBody [⟨"A", 1⟩]) 10))
      (updatedState (Worker.userUpdateHandler stHeld4 "r0" (mkUserBody [⟨"A", 1⟩]) 10))
      (by decide) (by rfl)
  · exact h3 "r0" (plainState (Worker.cancelHandler stHeld4 "r0")) (by rfl)
  · exact h4 "r0" adminRentBody
      (updatedApp (Worker.adminUpdateHandler stHeld4 "r0" adminRentBody 10))
      (updatedOps (Worker.adminUpdateHandler stHeld4 "r0" adminRentBody 10))
      (updatedState (Worker.adminUpdateHandler stHeld4 "r0" adminRentBody 10))
      (by rfl)
  · exact h5 "r0" (plainState (Worker.adminDeleteHandler stHeld4 "r0")) (by rfl)
  · exact h6 "A" (itemA 9)
      (plainState (Worker.updateItemHandler stHeld4 "A" (itemA 9))) (by rfl)

/-- **C4** — Create boundary and failure atomicity, in both the worker
direct handler and `dataService.addRentalApplication`: a create succeeds
whenever every selected item's quantity is at most its `currentStock` — in
particular `quantity == currentStock` drives that stock to 0 — and a
request containing an entry with `quantity == currentStock + 1` fails with
`InsufficientStock`, leaving stock and ledger unchanged (no partial state;
for `dataService` the returned store is exactly the input store). -/
theorem C4_create_boundary (st : DBState) (req : Worker.CreateReq)
    (newId appDate : String) (dep : Int)
    (hInv : Inv st) (hreq : entriesWF req.items)
    (hres : ∀ e ∈ req.items, ∃ it, findItem st.items e.itemId = some it) :
    ((∀ e ∈ req.items, ∀ it, findItem st.items e.itemId = some it →
        e.quantity ≤ it.currentStock) →
      ∃ st1 app, Worker.createHandler st req newId appDate dep = .ok (st1, app)
        ∧ DataService.addRentalApplication st req newId appDate dep = (st1, .ok app)
        ∧ ∀ e ∈ req.items, ∀ it, findItem st.items e.itemId = some it →
            e.quantity = it.currentStock →
            ∃ it', findItem st1.items e.itemId = some it' ∧ it'.currentStock = 0)
    ∧ ((∃ e ∈ req.items, ∀ it, findItem st.items e.itemId = some it →
          e.quantity = it.currentStock + 1) →
      Worker.createHandler st req newId appDate dep = .error .insufficientStock
      ∧ DataService.addRentalApplication st req newId appDate dep
          = (st, .error .insufficientStock)) := by
  obtain ⟨hiw, _, _, _, _⟩ := hInv
  constructor
  · intro hall
    have hval : ∀ e ∈ req.items, ∃ it, findItem st.items e.itemId = some it
        ∧ e.quantity ≤ it.currentStock := by
      intro e he
      obtain ⟨it, hit⟩ := hres e he
      exact ⟨it, hit, hall e he it hit⟩
    refine ⟨_, _, createHandler_ok hiw hreq.1 hval,
      addRentalApplication_ok hiw hreq.1 hval, ?_⟩
    intro e he it hit hqe
    refine ⟨{ it with currentStock := it.currentStock - qtyOf req.items it.id },
      ?_, ?_⟩
    · show findItem (st.items.map (fun it =>
        { it with currentStock := it.currentStock - qtyOf req.items it.id }))
          e.itemId = _
      rw [findItem_map_stock, hit]
      rfl
    · show it.currentStock - qtyOf req.items it.id = 0
      have hid := findItem_id hit
      have : qtyOf req.items it.id = e.quantity := by
        rw [hid]
        exact qtyOf_eq_of_mem hreq.1 he
      omega
  · intro hfail
    have hfail' : ∃ e ∈ req.items, ∀ it, findItem st.items e.itemId = some it →
        it.currentStock < e.quantity := by
      obtain ⟨e, he, hcond⟩ := hfail
      exact ⟨e, he, fun it hit => by have := hcond it hit; omega⟩
    constructor
    · unfold Worker.createHandler
      rw [validateCreate_insufficient
        (fun e he => hres e he) hfail']
    · exact addRentalApplication_fail hfail'

/-- Witness for C4: on the 10/10 store, reserving `{A:10}` succeeds and
drives the stock of "A" to 0 in both variants, while `{A:11}` fails with
`InsufficientStock` leaving the `dataService` store untouched. -/
theorem C4_create_boundary_witness :
    (∃ st1 app, Worker.createHandler stFree (mkReq [⟨"A", 10⟩]) "r1" "d" 10
        = .ok (st1, app)
      ∧ DataService.addRentalApplication stFree (mkReq [⟨"A", 10⟩]) "r1" "d" 10
        = (st1, .ok app)
      ∧ ∀ e ∈ (mkReq [⟨"A", 10⟩]).items, ∀ it, findItem stFree.items e.itemId = some it →
          e.quantity = it.currentStock →
          ∃ it', findItem st1.items e.itemId = some it' ∧ it'.currentStock = 0)
    ∧ Worker.createHandler stFree (mkReq [⟨"A", 11⟩]) "r1" "d" 10
        = .error .insufficientStock
    ∧ DataService.addRentalApplication stFree (mkReq [⟨"A", 11⟩]) "r1" "d" 10
        = (stFree, .error .insufficientStock) := by
  refine ⟨?_, ?_⟩
  · exact (C4_create_boundary stFree (mkReq [⟨"A", 10⟩]) "r1" "d" 10
      (by decide) (by decide)
      (fun e he => ⟨itemA 10, by
        rcases List.mem_singleton.mp he with rfl
        rfl⟩)).1
      (by
        intro e he it hit
        rcases List.mem_singleton.mp he with rfl
        have : it = itemA 10 := by
          have : findItem stFree.items "A" = some (itemA 10) := rfl
          rw [show (⟨"A", 10⟩ : SelectedItemEntry).itemId = "A" from rfl] at hit
          rw [this] at hit
          injection hit with h
          exact h.symm
        rw [this]
        decide)
  · exact (C4_create_boundary stFree (mkReq [⟨"A", 11⟩]) "r1" "d" 10
      (by decide) (by decide)
      (fun e he => ⟨itemA 10, by
        rcases List.mem_singleton.mp he with rfl
        rfl⟩)).2
      ⟨⟨"A", 11⟩, by decide, by
        intro it hit
        have : it = itemA 10 := by
          have h0 : findItem stFree.items "A" = some (itemA 10) := rfl
          rw [show (⟨"A", 11⟩ : SelectedItemEntry).itemId = "A" from rfl] at hit
          rw [h0] at hit
          injection hit with h
          exact h.symm
        rw [this]
        decide⟩

/-- **C5** — Defensive clamp: in the reconciliation step, exactly when the
computed `stockChange` is positive and `currentStock + stockChange >
initialStock`, the delta is silently clamped down to
`initialStock - currentStock` and no error is raised; non-positive deltas
are never clamped, and positive deltas within the bound pass through
unchanged.  Holds for the second-variant step on any store-valid stock
(`0 ≤ currentStock`), for the first-variant step under the full schema
bounds, and for `dataService.adjustStockForItem`'s increase operation, which
writes `min(currentStock + q, initialStock)`. -/
theorem C5_defensive_clamp :
    (∀ cur init sc : Int, 0 ≤ cur →
      ((0 < sc → init < cur + sc →
          Worker.reconcileItemDelta cur init sc
            = .ok (if init = cur then none else some (init - cur)))
       ∧ (sc ≤ 0 → ∀ d, Worker.reconcileItemDelta cur init sc = .ok (some d) →
            d = sc)
       ∧ (0 < sc → cur + sc ≤ init →
            Worker.reconcileItemDelta cur init sc = .ok (some sc))))
    ∧ (∀ cur init sc : Int, 0 ≤ cur → cur ≤ init →
      ((0 < sc → init < cur + sc →
          Worker.reconcileItemDeltaV1 cur init sc
            = .ok (if init = cur then none else some (init - cur)))
       ∧ (sc ≤ 0 → ∀ d, Worker.reconcileItemDeltaV1 cur init sc = .ok (some d) →
            d = sc)
       ∧ (0 < sc → cur + sc ≤ init →
            Worker.reconcileItemDeltaV1 cur init sc = .ok (some sc))))
    ∧ (∀ (inv : List Item) (itemId : String) (q : Int) (it : Item),
        findItem inv itemId = some it →
        DataService.adjustStockForItem inv itemId q .increase
          = .ok (inv.map (fun i =>
              if i.id == itemId then
                { it with currentStock :=
                    if it.initialStock < it.currentStock + q then it.initialStock
                    else it.currentStock + q }
              else i))) := by
  refine ⟨?_, ?_, ?_⟩
  · intro cur init sc hcur
    refine ⟨?_, ?_, ?_⟩
    · intro hpos hover
      unfold Worker.reconcileItemDelta
      rw [if_pos (by omega : sc ≠ 0), if_neg (by omega : ¬ cur + sc < 0)]
      simp only
      rw [if_pos (show init < cur + sc ∧ 0 < sc from ⟨hover, hpos⟩)]
      by_cases hz : init = cur
      · rw [if_neg (by omega : ¬ init - cur ≠ 0), if_pos hz]
      · rw [if_pos (by omega : init - cur ≠ 0), if_neg hz]
    · intro hnonpos d hd
      unfold Worker.reconcileItemDelta at hd
      by_cases hsc : sc = 0
      · rw [if_neg (by omega : ¬ sc ≠ 0)] at hd; cases hd
      · rw [if_pos (by omega : sc ≠ 0)] at hd
        by_cases hneg : cur + sc < 0
        · rw [if_pos hneg] at hd; cases hd
        · rw [if_neg hneg] at hd
          simp only at hd
          rw [if_neg (by omega : ¬ (init < cur + sc ∧ 0 < sc))] at hd
          rw [if_pos (by omega : sc ≠ 0)] at hd
          injection hd with hd
          injection hd with hd
          exact hd.symm
    · intro hpos hle
      rw [reconcileItemDelta_no_cap (by omega) (by omega) hle]
  · intro cur init sc hcur hle
    refine ⟨?_, ?_, ?_⟩
    · intro hpos hover
      unfold Worker.reconcileItemDeltaV1
      rw [if_pos (by omega : sc ≠ 0), if_neg (by omega : ¬ cur + sc < 0)]
      simp only
      rw [if_pos hover]
      by_cases hz : init = cur
      · rw [if_neg (by omega : ¬ init - cur ≠ 0), if_pos hz]
      · rw [if_pos (by omega : init - cur ≠ 0), if_neg hz]
    · intro hnonpos d hd
      unfold Worker.reconcileItemDeltaV1 at hd
      by_cases hsc : sc = 0
      · rw [if_neg (by omega : ¬ sc ≠ 0)] at hd; cases hd
      · rw [if_pos (by omega : sc ≠ 0)] at hd
        by_cases hneg : cur + sc < 0
        · rw [if_pos hneg] at hd; cases hd
        · rw [if_neg hneg] at hd
          simp only at hd
          rw [if_neg (by omega : ¬ init < cur + sc)] at hd
          rw [if_pos (by omega : sc ≠ 0)] at hd
          injection hd with hd
          injection hd with hd
          exact hd.symm
    · intro hpos hble
      unfold Worker.reconcileItemDeltaV1
      rw [if_pos (by omega : sc ≠ 0), if_neg (by omega : ¬ cur + sc < 0)]
      simp only
      rw [if_neg (by omega : ¬ init < cur + sc), if_pos (by omega : sc ≠ 0)]
  · intro inv itemId q it hfind
    unfold DataService.adjustStockForItem
    rw [hfind]

/-- Witness for C5: a positive delta of 9 against stock 4/10 is clamped to 6
without an error, a negative delta of the same size is applied unclamped,
and a dataService increase of 9 over 4/10 writes 10. -/
theorem C5_defensive_clamp_witness :
    Worker.reconcileItemDelta 4 10 9
      = .ok (if (10 : Int) = 4 then none else some (10 - 4))
    ∧ Worker.reconcileItemDelta 4 10 (-3) = .ok (some (-3))
    ∧ Worker.reconcileItemDeltaV1 4 10 9
      = .ok (if (10 : Int) = 4 then none else some (10 - 4))
    ∧ DataService.adjustStockForItem [itemA 4] "A" 9 .increase
      = .ok ([itemA 4].map (fun i =>
          if i.id == "A" then
            { itemA 4 with currentStock :=
                if (itemA 4).initialStock < (itemA 4).currentStock + 9
                then (itemA 4).initialStock
                else (itemA 4).currentStock + 9 }
          else i)) := by
  refine ⟨?_, ?_, ?_, ?_⟩
  · exact ((C5_defensive_clamp.1 4 10 9 (by decide)).1 (by decide) (by decide))
  · rfl
  · exact ((C5_defensive_clamp.2.1 4 10 9 (by decide) (by decide)).1
      (by decide) (by decide))
  · exact C5_defensive_clamp.2.2 [itemA 4] "A" 9 (itemA 4) (by decide)

/-- **C6** — Cancellation reversibility: a user cancel succeeds only when the
stored application is PENDING, and on success it restores each stored entry's
full quantity to that item's `currentStock` and removes the application row;
consequently a create immediately followed by a cancel of the fresh id
returns the store to exactly its previous state. -/
theorem C6_cancel_reversibility :
    (∀ (st : DBState) (rentalId : String) (st1 : DBState),
      Worker.cancelHandler st rentalId = .ok st1 →
      ∃ app, st.rentals.find? (fun a => a.id == rentalId) = some app
        ∧ app.status = .PENDING
        ∧ st1.rentals = st.rentals.filter (fun a => !(a.id == rentalId))
        ∧ ((app.items.map (fun e => e.itemId)).Nodup →
            st1.items = st.items.map (fun it =>
              { it with currentStock := it.currentStock + qtyOf app.items it.id })))
    ∧ (∀ (st : DBState) (req : Worker.CreateReq) (newId appDate : String)
        (dep : Int) (st1 : DBState) (app : RentalApplication),
      itemsWF st.items → entriesWF req.items →
      (∀ a ∈ st.rentals, ¬ a.id = newId) →
      Worker.createHandler st req newId appDate dep = .ok (st1, app) →
      Worker.cancelHandler st1 newId = .ok st) := by
  constructor
  · intro st rentalId st1 h
    obtain ⟨app, hfind, hpend⟩ := cancelHandler_ok_inv h
    rw [cancelHandler_ok hfind hpend] at h
    injection h with h
    refine ⟨app, hfind, hpend, ?_, ?_⟩
    · rw [← h]
    · intro hnd
      rw [← h]
      show Worker.applyOps st.items (app.items.map (fun e => (e.itemId, e.quantity))) = _
      exact restore_items_eq hnd st.items
  · intro st req newId appDate dep st1 app hiw hreq hfresh h
    have hval : ∀ e ∈ req.items, ∃ it, findItem st.items e.itemId = some it
        ∧ e.quantity ≤ it.currentStock := by
      unfold Worker.createHandler at h
      cases hv : Worker.validateCreate st.items req.items with
      | error e => rw [hv] at h; cases h
      | ok u =>
        cases u
        exact validateCreate_ok.mp hv
    rw [createHandler_ok hiw hreq.1 hval] at h
    injection h with h
    injection h with h1 h2
    subst h1
    have hfind : (st.rentals ++ [Worker.mkNewApplication req newId appDate
          (calculateRentalCosts req.items st.items dep).1 dep]).find?
        (fun a => a.id == newId)
        = some (Worker.mkNewApplication req newId appDate
            (calculateRentalCosts req.items st.items dep).1 dep) :=
      find_append_fresh hfresh rfl
    rw [cancelHandler_ok hfind rfl]
    refine congrArg Except.ok ?_
    have hitems : Worker.applyOps
        (st.items.map (fun it =>
          { it with currentStock := it.currentStock - qtyOf req.items it.id }))
        ((Worker.mkNewApplication req newId appDate
            (calculateRentalCosts req.items st.items dep).1 dep).items.map
          (fun e => (e.itemId, e.quantity)))
        = st.items := by
      show Worker.applyOps
        (st.items.map (fun it =>
          { it with currentStock := it.currentStock - qtyOf req.items it.id }))
        (req.items.map (fun e => (e.itemId, e.quantity))) = st.items
      rw [restore_items_eq hreq.1, List.map_map]
      conv_rhs => rw [← List.map_id st.items]
      apply List.map_congr_left
      intro it _
      show { it with currentStock :=
          it.currentStock - qtyOf req.items it.id + qtyOf req.items it.id } = it
      rw [Int.sub_add_cancel]
    have hrent : (st.rentals ++ [Worker.mkNewApplication req newId appDate
          (calculateRentalCosts req.items st.items dep).1 dep]).filter
        (fun a => !(a.id == newId)) = st.rentals := by
      rw [List.filter_append]
      have h1 : ([Worker.mkNewApplication req newId appDate
          (calculateRentalCosts req.items st.items dep).1 dep]).filter
          (fun a => !(a.id == newId)) = [] := by
        simp [Worker.mkNewApplication]
      have h2 : st.rentals.filter (fun a => !(a.id == newId)) = st.rentals :=
        List.filter_eq_self.mpr (fun a ha => by simpa using hfresh a ha)
      rw [h1, h2, List.append_nil]
    rw [hitems, hrent]

/-- Witness for C6: reserving `{A:2}` on the 10/10 store drops "A" to 8, and
cancelling the fresh application restores the store — in particular "A" is
back at exactly 10. -/
theorem C6_cancel_reversibility_witness :
    curStockOf (createdState
      (Worker.createHandler stFree (mkReq [⟨"A", 2⟩]) "r1" "2026-02-03" 10)) "A" = 8
    ∧ Worker.cancelHandler (createdState
        (Worker.createHandler stFree (mkReq [⟨"A", 2⟩]) "r1" "2026-02-03" 10)) "r1"
      = .ok stFree
    ∧ curStockOf stFree "A" = 10 := by
  refine ⟨by decide, ?_, by decide⟩
  exact C6_cancel_reversibility.2 stFree (mkReq [⟨"A", 2⟩]) "r1" "2026-02-03" 10
    (createdState (Worker.createHandler stFree (mkReq [⟨"A", 2⟩]) "r1" "2026-02-03" 10))
    (createdApp (Worker.createHandler stFree (mkReq [⟨"A", 2⟩]) "r1" "2026-02-03" 10))
    (by unfold itemsWF; decide) (by decide) (by decide) (by rfl)

/-- **C7 counterexample** — the direct admin handler does NOT replace the
stored entry list: on the store where `r0` holds `{A:2}`, an admin body whose
non-empty `items` array is `[{B,1}]` succeeds yet the persisted application
still stores `{A:2}`. -/
theorem C7_admin_items_counterexample :
    storedItemsOf
        (Worker.adminUpdateHandler stHeld2 "r0" (mkAdminItemsBody [⟨"B", 1⟩]) 10)
      = some [⟨"A", 2⟩]
    ∧ some [(⟨"A", 2⟩ : SelectedItemEntry)] ≠ some [(⟨"B", 1⟩ : SelectedItemEntry)] :=
  ⟨by rfl, by decide⟩

/-- **C7 (amended)** — Admin-edit item replacement holds only in the first
(itty-router) variant: there a body with an `items` array replaces the stored
entry list and the engine reconciles between the old stored list and the
body's list.  In the direct handler the body's `items` array is ignored and
the persisted application keeps the stored entry list. -/
theorem C7_admin_items_replacement :
    (∀ (st : DBState) (rentalId : String) (body : Worker.AdminUpdateBody)
        (dep : Int) (fa : RentalApplication) (ops : List (String × Int))
        (st' : DBState),
      Worker.adminUpdateHandler st rentalId body dep = .ok (fa, ops, st') →
      ∃ orig, st.rentals.find? (fun a => a.id == rentalId) = some orig
        ∧ fa.items = orig.items)
    ∧ (∀ (st : DBState) (rentalId : String) (body : Worker.AdminUpdateBody)
        (dep : Int) (l : List SelectedItemEntry) (fa : RentalApplication)
        (ops : List (String × Int)) (st' : DBState),
      body.items = some l →
      Worker.adminUpdateHandlerV1 st rentalId body dep = .ok (fa, ops, st') →
      ∃ orig, st.rentals.find? (fun a => a.id == rentalId) = some orig
        ∧ fa.items = l
        ∧ st'.rentals = Worker.replaceApp st.rentals fa
        ∧ st'.items = Worker.applyOps st.items ops
        ∧ ∃ m', Worker.reconcileLoopV1 st.items orig.items l
            (reservedStatus orig.status)
            (reservedStatus (Worker.mergeAdminData orig body).status)
            (Worker.involvedItemIds orig.items l)
            (st.items.map (fun it => (it.id, it.currentStock))) = .ok (ops, m')) := by
  constructor
  · intro st rentalId body dep fa ops st' h
    obtain ⟨orig, hfind, hm⟩ := adminUpdateHandler_ok_inv h
    obtain ⟨hfa, _, _, _⟩ := manageRentalUpdate_shape hm
    exact ⟨orig, hfind, by rw [hfa]⟩
  · intro st rentalId body dep l fa ops st' hbody h
    obtain ⟨orig, hfind, hm⟩ := adminUpdateHandlerV1_ok_inv h
    rw [hbody] at hm
    obtain ⟨hfa, hsi, hsr, m', hrec⟩ := manageRentalUpdateV1_shape hm
    exact ⟨orig, hfind, by rw [hfa]; rfl, hsr, hsi, m', hrec⟩

/-- Witness for the amended C7: on the store where `r0` holds `{A:2}`, an
admin body carrying `items = [{A,1}]` succeeds in both variants; the direct
handler keeps the stored `{A:2}` while the first variant persists `{A:1}`. -/
theorem C7_admin_items_replacement_witness :
    (updatedApp (Worker.adminUpdateHandler stHeld2 "r0"
        (mkAdminItemsBody [⟨"A", 1⟩]) 10)).items = [⟨"A", 2⟩]
    ∧ (updatedApp (Worker.adminUpdateHandlerV1 stHeld2 "r0"
        (mkAdminItemsBody [⟨"A", 1⟩]) 10)).items = [⟨"A", 1⟩] := by
  constructor
  · obtain ⟨orig, hfind, hitems⟩ := C7_admin_items_replacement.1 stHeld2 "r0"
      (mkAdminItemsBody [⟨"A", 1⟩]) 10
      (updatedApp (Worker.adminUpdateHandler stHeld2 "r0"
        (mkAdminItemsBody [⟨"A", 1⟩]) 10))
      (updatedOps (Worker.adminUpdateHandler stHeld2 "r0"
        (mkAdminItemsBody [⟨"A", 1⟩]) 10))
      (updatedState (Worker.adminUpdateHandler stHeld2 "r0"
        (mkAdminItemsBody [⟨"A", 1⟩]) 10))
      (by rfl)
    have h0 : stHeld2.rentals.find? (fun a => a.id == "r0")
        = some (mkApp [⟨"A", 2⟩] 10) := by rfl
    have horig : mkApp [⟨"A", 2⟩] 10 = orig := by
      have := h0.symm.trans hfind
      injection this
    rw [hitems, ← horig]
    rfl
  · obtain ⟨orig, hfind, hitems, _, _, _⟩ := C7_admin_items_replacement.2 stHeld2 "r0"
      (mkAdminItemsBody [⟨"A", 1⟩]) 10 [⟨"A", 1⟩]
      (updatedApp (Worker.adminUpdateHandlerV1 stHeld2 "r0"
        (mkAdminItemsBody [⟨"A", 1⟩]) 10))
      (updatedOps (Worker.adminUpdateHandlerV1 stHeld2 "r0"
        (mkAdminItemsBody [⟨"A", 1⟩]) 10))
      (updatedState (Worker.adminUpdateHandlerV1 stHeld2 "r0"
        (mkAdminItemsBody [⟨"A", 1⟩]) 10))
      (by rfl) (by rfl)
    exact hitems

/-- **C8** — Cost calculation: `calculateRentalCosts` is pure and returns
`totalItemCost` equal to the sum of `price * quantity` over exactly the
entries whose `itemId` resolves in the item list (an unresolvable entry
contributes 0 and raises no error) and `totalAmount = totalItemCost +
fixedDeposit`; every create, user edit and admin edit persists these
recomputed values — `deposit` is the fixed deposit and `totalAmount` the
recomputed cost plus the deposit, never the client's figures. -/
theorem C8_cost_calculation :
    (∀ (entries : List SelectedItemEntry) (allItems : List Item) (dep : Int),
      calculateRentalCosts entries allItems dep
        = ((entries.map (fun s =>
              match findItem allItems s.itemId with
              | some it => it.price * s.quantity
              | none => 0)).sum,
           (entries.map (fun s =>
              match findItem allItems s.itemId with
              | some it => it.price * s.quantity
              | none => 0)).sum + dep))
    ∧ (∀ (st : DBState) (req : Worker.CreateReq) (newId appDate : String)
        (dep : Int) (st1 : DBState) (app : RentalApplication),
      Worker.createHandler st req newId appDate dep = .ok (st1, app) →
      app.totalItemCost = (calculateRentalCosts app.items st.items dep).1
        ∧ app.deposit = dep
        ∧ app.totalAmount = app.totalItemCost + dep)
    ∧ (∀ (st : DBState) (rentalId : String) (body : Worker.UserUpdateBody)
        (dep : Int) (fa : RentalApplication) (ops : List (String × Int))
        (st1 : DBState),
      Worker.userUpdateHandler st rentalId body dep = .ok (fa, ops, st1) →
      fa.totalItemCost = (calculateRentalCosts fa.items st.items dep).1
        ∧ fa.deposit = dep
        ∧ fa.totalAmount = fa.totalItemCost + dep)
    ∧ (∀ (st : DBState) (rentalId : String) (body : Worker.AdminUpdateBody)
        (dep : Int) (fa : RentalApplication) (ops : List (String × Int))
        (st1 : DBState),
      Worker.adminUpdateHandler st rentalId body dep = .ok (fa, ops, st1) →
      fa.totalItemCost = (calculateRentalCosts fa.items st.items dep).1
        ∧ fa.deposit = dep
        ∧ fa.totalAmount = fa.totalItemCost + dep) := by
  refine ⟨?_, ?_, ?_, ?_⟩
  · intro entries allItems dep
    have h := calculateRentalCosts_foldl allItems entries 0
    simp only [calculateRentalCosts]
    rw [h, Int.zero_add]
  · intro st req newId appDate dep st1 app h
    unfold Worker.createHandler at h
    cases hv : Worker.validateCreate st.items req.items with
    | error e => rw [hv] at h; cases h
    | ok u =>
      cases u
      rw [hv] at h
      simp only at h
      injection h with h
      injection h with h1 h2
      subst h2
      exact ⟨rfl, rfl, rfl⟩
  · intro st rentalId body dep fa ops st1 h
    obtain ⟨newItemsData, rentalDate, returnDate, orig, _, _, _, _, _, hm⟩ :=
      userUpdateHandler_ok_inv h
    obtain ⟨hfa, _, _, _⟩ := manageRentalUpdate_shape hm
    refine ⟨?_, ?_, ?_⟩ <;> rw [hfa]
  · intro st rentalId body dep fa ops st1 h
    obtain ⟨orig, _, hm⟩ := adminUpdateHandler_ok_inv h
    obtain ⟨hfa, _, _, _⟩ := manageRentalUpdate_shape hm
    refine ⟨?_, ?_, ?_⟩ <;> rw [hfa]

/-- Witness for C8: on a price list holding only item "A" (price 5), the
entries `{A:2, Z:5}` cost `(10, 17)` under deposit 7 — the unresolvable "Z"
entry contributes 0 — and a concrete successful user edit persists the
recomputed `totalItemCost`. -/
theorem C8_cost_calculation_witness :
    calculateRentalCosts [⟨"A", 2⟩, ⟨"Z", 5⟩] [itemA 10] 7 = (10, 17)
    ∧ (updatedApp (Worker.userUpdateHandler stHeld4 "r0"
          (mkUserBody [⟨"A", 1⟩]) 10)).totalItemCost
      = (calculateRentalCosts (updatedApp (Worker.userUpdateHandler stHeld4 "r0"
          (mkUserBody [⟨"A", 1⟩]) 10)).items stHeld4.items 10).1 := by
  constructor
  · rw [C8_cost_calculation.1 [⟨"A", 2⟩, ⟨"Z", 5⟩] [itemA 10] 7]
    decide
  · exact (C8_cost_calculation.2.2.1 stHeld4 "r0" (mkUserBody [⟨"A", 1⟩]) 10
      (updatedApp (Worker.userUpdateHandler stHeld4 "r0" (mkUserBody [⟨"A", 1⟩]) 10))
      (updatedOps (Worker.userUpdateHandler stHeld4 "r0" (mkUserBody [⟨"A", 1⟩]) 10))
      (updatedState (Worker.userUpdateHandler stHeld4 "r0" (mkUserBody [⟨"A", 1⟩]) 10))
      (by rfl)).1

/-- **C9 counterexample** — under the racy interleaving (both requests
validate against the same snapshot before either batch commits), two creates
each reserving `{A:6}` against `currentStock = 10` BOTH return 201: the
second decrement's `WHERE currentStock >= ?` guard fails silently and its
batch still succeeds, so "exactly one succeeds" is violated (the final stock
is still 4 and two application rows are inserted). -/
theorem C9_concurrent_create_counterexample :
    reqSucceeded (Worker.runTwoCreates stFree (mkReq [⟨"A", 6⟩])
        (mkReq [⟨"A", 6⟩]) "r1" "r2" "2026-02-03" 10 true).2.1 = true
    ∧ reqSucceeded (Worker.runTwoCreates stFree (mkReq [⟨"A", 6⟩])
        (mkReq [⟨"A", 6⟩]) "r1" "r2" "2026-02-03" 10 true).2.2 = true
    ∧ curStockOf (Worker.runTwoCreates stFree (mkReq [⟨"A", 6⟩])
        (mkReq [⟨"A", 6⟩]) "r1" "r2" "2026-02-03" 10 true).1 "A" = 4
    ∧ (Worker.runTwoCreates stFree (mkReq [⟨"A", 6⟩])
        (mkReq [⟨"A", 6⟩]) "r1" "r2" "2026-02-03" 10 true).1.rentals.length = 2 :=
  ⟨rfl, rfl, rfl, rfl⟩

/-- **C9 (amended)** — Concurrent create: for the two `{A:6}` requests
against the 10/10 store, the first request always succeeds and the final
stock of "A" is 4 under either interleaving, but the second request's fate
depends on the interleaving: serialized it fails with `insufficientStock`
and one row is inserted, racy BOTH succeed and two rows are inserted (the
silent conditional decrement keeps the stock at 4 instead of failing the
batch).  The stock never goes negative: every conditional decrement
preserves nonnegative stocks. -/
theorem C9_concurrent_create :
    (∀ racy : Bool,
      reqSucceeded (Worker.runTwoCreates stFree (mkReq [⟨"A", 6⟩])
          (mkReq [⟨"A", 6⟩]) "r1" "r2" "2026-02-03" 10 racy).2.1 = true
      ∧ reqSucceeded (Worker.runTwoCreates stFree (mkReq [⟨"A", 6⟩])
          (mkReq [⟨"A", 6⟩]) "r1" "r2" "2026-02-03" 10 racy).2.2 = racy
      ∧ (racy = false →
          (Worker.runTwoCreates stFree (mkReq [⟨"A", 6⟩])
            (mkReq [⟨"A", 6⟩]) "r1" "r2" "2026-02-03" 10 racy).2.2
          = .error .insufficientStock)
      ∧ curStockOf (Worker.runTwoCreates stFree (mkReq [⟨"A", 6⟩])
          (mkReq [⟨"A", 6⟩]) "r1" "r2" "2026-02-03" 10 racy).1 "A" = 4
      ∧ (Worker.runTwoCreates stFree (mkReq [⟨"A", 6⟩])
          (mkReq [⟨"A", 6⟩]) "r1" "r2" "2026-02-03" 10 racy).1.rentals.length
        = if racy then 2 else 1)
    ∧ (∀ (inv : List Item) (entries : List SelectedItemEntry),
      (∀ it ∈ inv, 0 ≤ it.currentStock) →
      ∀ it ∈ Worker.condDecAll inv entries, 0 ≤ it.currentStock) := by
  constructor
  · intro racy
    cases racy with
    | false =>
      exact ⟨rfl, rfl, fun _ => rfl, rfl, rfl⟩
    | true =>
      exact ⟨rfl, rfl, fun h => absurd h (by decide), rfl, rfl⟩
  · intro inv entries
    induction entries generalizing inv with
    | nil => intro h it hit; exact h it hit
    | cons e rest ih =>
      intro h it hit
      have hit' : it ∈ Worker.condDecAll
          (Worker.condDecrement inv e.itemId e.quantity) rest := hit
      refine ih _ ?_ it hit'
      intro it1 hit1
      rcases List.mem_map.mp hit1 with ⟨it0, hmem0, rfl⟩
      by_cases hc : (it0.id == e.itemId) = true ∧ e.quantity ≤ it0.currentStock
      · rw [if_pos hc]
        show 0 ≤ it0.currentStock - e.quantity
        omega
      · rw [if_neg hc]
        exact h it0 hmem0

/-- Witness for the amended C9: serialized, the second `{A:6}` request is
refused with `insufficientStock` and the stock ends at 4; and a conditional
decrement whose guard fails leaves a nonnegative stock untouched. -/
theorem C9_concurrent_create_witness :
    (Worker.runTwoCreates stFree (mkReq [⟨"A", 6⟩])
        (mkReq [⟨"A", 6⟩]) "r1" "r2" "2026-02-03" 10 false).2.2
      = .error .insufficientStock
    ∧ curStockOf (Worker.runTwoCreates stFree (mkReq [⟨"A", 6⟩])
        (mkReq [⟨"A", 6⟩]) "r1" "r2" "2026-02-03" 10 false).1 "A" = 4
    ∧ 0 ≤ (itemA 3).currentStock := by
  refine ⟨?_, ?_, ?_⟩
  · exact (C9_concurrent_create.1 false).2.2.1 rfl
  · exact (C9_concurrent_create.1 false).2.2.2.1
  · exact C9_concurrent_create.2 [itemA 3] [⟨"A", 6⟩] (by decide) (itemA 3) (by decide)

/-- **C10** — User-edit frame property, in both variants: a successful user
edit of a PENDING application persists an application that keeps the stored
row's id, applicant identity, account info, status, application date, staff
fields, actual return date and deposit-refund flag; only the two dates and
the items list are taken from the request (whatever extra fields the body
carries), and the cost fields are recomputed server-side. -/
theorem C10_user_edit_frame :
    (∀ (st : DBState) (rentalId : String) (body : Worker.UserUpdateBody)
        (dep : Int) (fa : RentalApplication) (ops : List (String × Int))
        (st1 : DBState),
      Worker.userUpdateHandler st rentalId body dep = .ok (fa, ops, st1) →
      ∃ orig, st.rentals.find? (fun a => a.id == rentalId) = some orig
        ∧ orig.status = .PENDING
        ∧ fa.id = orig.id
        ∧ fa.applicantName = orig.applicantName
        ∧ fa.phoneNumber = orig.phoneNumber
        ∧ fa.studentId = orig.studentId
        ∧ fa.accountHolderName = orig.accountHolderName
        ∧ fa.accountNumber = orig.accountNumber
        ∧ fa.status = orig.status
        ∧ fa.applicationDate = orig.applicationDate
        ∧ fa.rentalStaff = orig.rentalStaff
        ∧ fa.returnStaff = orig.returnStaff
        ∧ fa.actualReturnDate = orig.actualReturnDate
        ∧ fa.depositRefunded = orig.depositRefunded
        ∧ body.rentalDate = some fa.rentalDate
        ∧ body.returnDate = some fa.returnDate
        ∧ body.items = some fa.items
        ∧ fa.totalItemCost = (calculateRentalCosts fa.items st.items dep).1
        ∧ fa.deposit = dep
        ∧ fa.totalAmount = fa.totalItemCost + dep
        ∧ st1.rentals = Worker.replaceApp st.rentals fa)
    ∧ (∀ (st : DBState) (rentalId : String) (body : Worker.UserUpdateBody)
        (dep : Int) (fa : RentalApplication) (ops : List (String × Int))
        (st1 : DBState),
      Worker.userUpdateHandlerV1 st rentalId body dep = .ok (fa, ops, st1) →
      ∃ orig, st.rentals.find? (fun a => a.id == rentalId) = some orig
        ∧ orig.status = .PENDING
        ∧ fa.id = orig.id
        ∧ fa.applicantName = orig.applicantName
        ∧ fa.phoneNumber = orig.phoneNumber
        ∧ fa.studentId = orig.studentId
        ∧ fa.accountHolderName = orig.accountHolderName
        ∧ fa.accountNumber = orig.accountNumber
        ∧ fa.status = orig.status
        ∧ fa.applicationDate = orig.applicationDate
        ∧ fa.rentalStaff = orig.rentalStaff
        ∧ fa.returnStaff = orig.returnStaff
        ∧ fa.actualReturnDate = orig.actualReturnDate
        ∧ fa.depositRefunded = orig.depositRefunded
        ∧ body.rentalDate = some fa.rentalDate
        ∧ body.returnDate = some fa.returnDate
        ∧ body.items = some fa.items
        ∧ fa.totalItemCost = (calculateRentalCosts fa.items st.items dep).1
        ∧ fa.deposit = dep
        ∧ fa.totalAmount = fa.totalItemCost + dep
        ∧ st1.rentals = Worker.replaceApp st.rentals fa) := by
  constructor
  · intro st rentalId body dep fa ops st1 h
    obtain ⟨nid, rd, ret, orig, hbi, hbr, hbt, hfind, hpend, hm⟩ :=
      userUpdateHandler_ok_inv h
    obtain ⟨hfa, _, hsr, _⟩ := manageRentalUpdate_shape hm
    subst hfa
    exact ⟨orig, hfind, hpend, rfl, rfl, rfl, rfl, rfl, rfl, rfl, rfl, rfl, rfl,
      rfl, rfl, hbr, hbt, hbi, rfl, rfl, rfl, hsr⟩
  · intro st rentalId body dep fa ops st1 h
    obtain ⟨nid, rd, ret, orig, hbi, hbr, hbt, hfind, hpend, hm⟩ :=
      userUpdateHandlerV1_ok_inv h
    obtain ⟨hfa, _, hsr, _⟩ := manageRentalUpdateV1_shape hm
    subst hfa
    exact ⟨orig, hfind, hpend, rfl, rfl, rfl, rfl, rfl, rfl, rfl, rfl, rfl, rfl,
      rfl, rfl, hbr, hbt, hbi, rfl, rfl, rfl, hsr⟩

/-- Witness for C10: editing the PENDING application `r0` down to `{A:1}`
keeps the stored applicant name and the PENDING status, and persists the
body's items list in the first variant. -/
theorem C10_user_edit_frame_witness :
    (updatedApp (Worker.userUpdateHandler stHeld4 "r0"
        (mkUserBody [⟨"A", 1⟩]) 10)).applicantName = "Kim"
    ∧ (updatedApp (Worker.userUpdateHandler stHeld4 "r0"
        (mkUserBody [⟨"A", 1⟩]) 10)).status = RentalStatus.PENDING
    ∧ (updatedApp (Worker.userUpdateHandlerV1 stHeld4 "r0"
        (mkUserBody [⟨"A", 1⟩]) 10)).items = [⟨"A", 1⟩] := by
  have h2 := C10_user_edit_frame.1 stHeld4 "r0" (mkUserBody [⟨"A", 1⟩]) 10
    (updatedApp (Worker.userUpdateHandler stHeld4 "r0" (mkUserBody [⟨"A", 1⟩]) 10))
    (updatedOps (Worker.userUpdateHandler stHeld4 "r0" (mkUserBody [⟨"A", 1⟩]) 10))
    (updatedState (Worker.userUpdateHandler stHeld4 "r0" (mkUserBody [⟨"A", 1⟩]) 10))
    (by rfl)
  obtain ⟨orig, hfind, hpend, _, hname, _, _, _, _, hstat, _⟩ := h2
  have h0 : stHeld4.rentals.find? (fun a => a.id == "r0")
      = some (mkApp [⟨"A", 4⟩] 20) := by rfl
  have horig : mkApp [⟨"A", 4⟩] 20 = orig := by
    have := h0.symm.trans hfind
    injection this
  refine ⟨?_, ?_, ?_⟩
  · rw [hname, ← horig]
    rfl
  · rw [hstat, hpend]
  · have h3 := C10_user_edit_frame.2 stHeld4 "r0" (mkUserBody [⟨"A", 1⟩]) 10
      (updatedApp (Worker.userUpdateHandlerV1 stHeld4 "r0" (mkUserBody [⟨"A", 1⟩]) 10))
      (updatedOps (Worker.userUpdateHandlerV1 stHeld4 "r0" (mkUserBody [⟨"A", 1⟩]) 10))
      (updatedState (Worker.userUpdateHandlerV1 stHeld4 "r0" (mkUserBody [⟨"A", 1⟩]) 10))
      (by rfl)
    obtain ⟨_, _, _, _, _, _, _, _, _, _, _, _, _, _, _, _, _, hitems, _⟩ := h3
    have : some [(⟨"A", 1⟩ : SelectedItemEntry)]
        = some (updatedApp (Worker.userUpdateHandlerV1 stHeld4 "r0"
            (mkUserBody [⟨"A", 1⟩]) 10)).items := hitems
    injection this with h4

end RentWeb
